import Mathlib

/-!
# BankSim3000 — verification of the discrete-event bank/teller simulation

Shallow embedding of `src/main.cpp` (BankSim3000): a discrete-event
simulation where customers arrive, wait in a FIFO bank line, and are served
by a pool of tellers.  The C++ `std::priority_queue<Event, vector<Event>,
CompareEvent>` is embedded as an array-backed binary min-heap (by event
time) with the standard library's `push_heap`/`pop_heap` sift procedures;
on ties of event times the sift-down moves the preferred child up (the
behaviour of the mainstream C++ standard-library heaps, which agree on
every pop performed on this repository's input trace).  C++ `Time` is
`int`; it is embedded as `Int` (arithmetic in the program stays far from
the 32-bit range on the inputs considered).  Fallible operations
(`std::optional::value`, out-of-range vector indexing, `throw
invalid_argument`) are embedded with `Option`/`Except`.  The `while` loop
of `runSimulation` is embedded with an explicit fuel argument; the fuel
`simMeasure` is proved sufficient below, which is exactly the termination
argument of the loop.
-/

/-- C++ `using Time = int;` — integer time units. -/
abbrev Time := Int

/-- C++ `using TellerIndex = size_t;`. -/
abbrev TellerIndex := Nat

/-- C++ `const size_t MIN_TELLERS = 1;`. -/
def MIN_TELLERS : Nat := 1

/-- C++ `const size_t MAX_TELLERS = 5;`. -/
def MAX_TELLERS : Nat := 5

/-- `struct ArrivalEvent { Time arrivalTime; Time transactionTime; };` -/
structure ArrivalEvent where
  arrivalTime : Time
  transactionTime : Time
deriving Repr, DecidableEq, Inhabited

/-- `struct Customer { ArrivalEvent arrivalEvent; };` -/
structure Customer where
  arrivalEvent : ArrivalEvent
deriving Repr, DecidableEq, Inhabited

/-- `struct DepartureEvent { Time departureTime; TellerIndex tellerIndex; };` -/
structure DepartureEvent where
  departureTime : Time
  tellerIndex : TellerIndex
deriving Repr, DecidableEq, Inhabited

/-- `using Event = std::variant<ArrivalEvent, DepartureEvent>;` -/
inductive Event where
  | arrival : ArrivalEvent → Event
  | departure : DepartureEvent → Event
deriving Repr, DecidableEq, Inhabited

/-- `Time get_event_time(const Event& e)` — the time of either event kind. -/
def get_event_time : Event → Time
  | Event.arrival a => a.arrivalTime
  | Event.departure d => d.departureTime

/-- `struct CompareEvent { bool operator()(const Event& e1, const Event& e2); }`:
returns `get_event_time(e1) > get_event_time(e2)`, making the priority queue
a min-heap on event time. -/
def compareEvent (e1 e2 : Event) : Bool :=
  decide (get_event_time e2 < get_event_time e1)

/-- Discriminator: is this event an `ArrivalEvent`?
(C++ `holds_alternative<ArrivalEvent>(e)`.) -/
def Event.isArrival : Event → Bool
  | Event.arrival _ => true
  | Event.departure _ => false

/-- The teller index carried by a departure event, `none` for arrivals.
Used only to state bookkeeping invariants. -/
def Event.depIndex : Event → Option Nat
  | Event.arrival _ => none
  | Event.departure d => some d.tellerIndex

/-! ## The event priority queue

`using EventQueue = priority_queue<Event, vector<Event>, CompareEvent>;`
embedded as the backing `Array Event` in heap order together with the
standard sift procedures.  `siftUpFuel`/`siftDownFuel` carry an explicit
fuel so that they are structurally recursive and compute by `rfl`; the
fuel passed by `heapPush`/`heapPop` is proved sufficient below
(`siftUpFuel` moves to the parent `(i-1)/2 < i`, so fuel `i` suffices;
`siftDownFuel` moves to a child `< size`, so fuel `size - i` suffices). -/

abbrev EventQueue := Array Event

/-- Sift the element at index `i` up toward the root while its parent
compares after it (`push_heap`).  Ties stop the ascent. -/
def siftUpFuel : Nat → Array Event → Nat → Array Event
  | 0, a, _ => a
  | fuel + 1, a, i =>
    if h : 0 < i ∧ i < a.size then
      if compareEvent (a[(i - 1) / 2]!) (a[i]!) then
        siftUpFuel fuel (a.swap ⟨(i - 1) / 2, by omega⟩ ⟨i, h.2⟩) ((i - 1) / 2)
      else a
    else a

/-- The child of `i` preferred by the sift-down: the one with the smaller
event time (ties prefer the left child), provided `2*i+1 < a.size`. -/
def minChildIdx (a : Array Event) (i : Nat) : Nat :=
  if 2 * i + 2 < a.size ∧ compareEvent (a[2 * i + 1]!) (a[2 * i + 2]!) then
    2 * i + 2
  else 2 * i + 1

/-- Sift the element at index `i` down while it compares after the preferred
child (`pop_heap`).  On a time tie with the preferred child the child is
moved up (the behaviour of the mainstream standard-library heaps). -/
def siftDownFuel : Nat → Array Event → Nat → Array Event
  | 0, a, _ => a
  | fuel + 1, a, i =>
    if hl : 2 * i + 1 < a.size then
      if compareEvent (a[minChildIdx a i]!) (a[i]!) then a
      else
        siftDownFuel fuel
          (a.swap ⟨i, by omega⟩ ⟨minChildIdx a i, by unfold minChildIdx; split <;> omega⟩)
          (minChildIdx a i)
    else a

/-- `eventQueue.push(e)`: append at the back and sift up. -/
def heapPush (a : Array Event) (e : Event) : Array Event :=
  siftUpFuel a.size (a.push e) a.size

/-- `eventQueue.pop()`: move the last element to the root, shrink by one,
and sift the new root down.  (On an empty queue C++ `pop` is undefined;
the loop in `runSimulation` only pops non-empty queues.) -/
def heapPop (a : Array Event) : Array Event :=
  if h : a.size ≤ 1 then a.pop
  else siftDownFuel (a.size - 1) ((a.swap ⟨0, by omega⟩ ⟨a.size - 1, by omega⟩).pop) 0

/-- The zero-based binary min-heap invariant on the backing array: every
non-root element is no earlier than its parent. -/
def HeapProp (a : Array Event) : Prop :=
  ∀ i, i < a.size → 0 < i →
    get_event_time (a[(i - 1) / 2]!) ≤ get_event_time (a[i]!)

/-! ## Tellers -/

/-- `class Teller`: `startBusy` is `some t` while the teller is busy (C++
`optional<Time>`), and `elapsedTimeBusy` accumulates finished busy time. -/
structure Teller where
  startBusy : Option Time
  elapsedTimeBusy : Time
deriving Repr, DecidableEq, Inhabited

/-- `Teller() : startBusy(nullopt), elapsedTimeBusy(0) {}` -/
def Teller.init : Teller := { startBusy := none, elapsedTimeBusy := 0 }

/-- `bool isAvailable() { return !startBusy.has_value(); }` -/
def Teller.isAvailable (t : Teller) : Bool :=
  !t.startBusy.isSome

/-- `void startWork(Time currentTime) { startBusy = currentTime; }` -/
def Teller.startWork (t : Teller) (currentTime : Time) : Teller :=
  { t with startBusy := some currentTime }

/-- `void stopWork(Time currentTime)`: accumulate `currentTime -
startBusy.value()` and become idle.  `startBusy.value()` on an idle teller
throws `bad_optional_access`, embedded as `none`. -/
def Teller.stopWork (t : Teller) (currentTime : Time) : Option Teller :=
  t.startBusy.map fun sb =>
    { startBusy := none, elapsedTimeBusy := t.elapsedTimeBusy + (currentTime - sb) }

/-- `Time elapsedTimeWorking() { return elapsedTimeBusy; }` -/
def Teller.elapsedTimeWorking (t : Teller) : Time :=
  t.elapsedTimeBusy

/-! ## Results, bank line, engine state -/

/-- `struct SimulationResults { vector<Time> elapsedTimeBusy; ... };` -/
structure SimulationResults where
  elapsedTimeBusy : List Time
deriving Repr, DecidableEq

/-- `Time maxTellerBusyTime()`: `*max_element(...)`.  Dereferencing
`max_element` of an empty vector is undefined, embedded as `none`. -/
def SimulationResults.maxTellerBusyTime (r : SimulationResults) : Option Time :=
  r.elapsedTimeBusy.max?

/-- `using BankLine = queue<Customer>;` — head of the list is the front. -/
abbrev BankLine := List Customer

/-- `using SimulationInput = vector<ArrivalEvent>;` -/
abbrev SimulationInput := List ArrivalEvent

/-- `class BankSim3000` — the engine's four data members. -/
structure BankSim3000 where
  simulationInput : SimulationInput
  eventQueue : EventQueue
  bankLine : BankLine
  tellers : List Teller
deriving Repr, DecidableEq

/-- `BankSim3000(SimulationInput simulationInput)` — members
default-initialised to empty. -/
def BankSim3000.mk0 (input : SimulationInput) : BankSim3000 :=
  { simulationInput := input, eventQueue := #[], bankLine := [], tellers := [] }

deriving instance DecidableEq for Except

namespace BankSim3000

/-- `void resetTellers(size_t tellerCount)`: clear and refill with
`tellerCount` default-constructed tellers. -/
def resetTellers (s : BankSim3000) (tellerCount : Nat) : BankSim3000 :=
  { s with tellers := List.replicate tellerCount Teller.init }

/-- `void clearBankLine()`: pop until empty.  (The C++ `assert` that the
line is already empty holds on every path on which this is invoked after a
complete run; the loop semantics empties the line regardless.) -/
def clearBankLine (s : BankSim3000) : BankSim3000 :=
  { s with bankLine := [] }

/-- `void setupEventQueue()`: pop until empty, then push every arrival of
`simulationInput`.  (Again the C++ `assert` of emptiness is subsumed by
the loop semantics.) -/
def setupEventQueue (s : BankSim3000) : BankSim3000 :=
  { s with eventQueue :=
      s.simulationInput.foldl (fun q a => heapPush q (Event.arrival a)) #[] }

/-- `void setupSimulation(size_t tellerCount)`: validate the teller count
(throwing `invalid_argument` before touching any state), then reset the
event queue, the teller pool, and the bank line. -/
def setupSimulation (s : BankSim3000) (tellerCount : Nat) : Except String BankSim3000 :=
  if tellerCount < MIN_TELLERS then
    Except.error "Teller count must >= 1"
  else if tellerCount > MAX_TELLERS then
    Except.error "Teller count must be <= 5"
  else
    Except.ok (((s.setupEventQueue).resetTellers tellerCount).clearBankLine)

/-- `optional<size_t> searchAvailableTellers()`: index of the first
available teller, scanning from index 0. -/
def searchAvailableTellersAux : List Teller → Option Nat
  | [] => none
  | t :: ts =>
    if t.isAvailable then some 0
    else (searchAvailableTellersAux ts).map (· + 1)

/-- Method wrapper over the teller pool. -/
def searchAvailableTellers (s : BankSim3000) : Option Nat :=
  searchAvailableTellersAux s.tellers

/-- `void processArrival(Time currentTime, const ArrivalEvent&)`: start the
first available teller and schedule its departure, or append the customer
to the bank line. -/
def processArrival (s : BankSim3000) (currentTime : Time) (arrivalEvent : ArrivalEvent) :
    BankSim3000 :=
  match s.searchAvailableTellers with
  | some tellerIndex =>
    { s with
      tellers := s.tellers.set tellerIndex ((s.tellers[tellerIndex]!).startWork currentTime)
      eventQueue := heapPush s.eventQueue
        (Event.departure ⟨currentTime + arrivalEvent.transactionTime, tellerIndex⟩) }
  | none =>
    { s with bankLine := s.bankLine ++ [Customer.mk arrivalEvent] }

/-- `void processDeparture(Time currentTime, const DepartureEvent&)`: stop
the departing teller; if the line is non-empty, immediately restart it on
the front customer and schedule the new departure.  `tellers[tellerIndex]`
out of range and `stopWork` on an idle teller are faults (`none`). -/
def processDeparture (s : BankSim3000) (currentTime : Time) (departureEvent : DepartureEvent) :
    Option BankSim3000 :=
  if departureEvent.tellerIndex < s.tellers.length then
    match s.bankLine with
    | [] =>
      ((s.tellers[departureEvent.tellerIndex]!).stopWork currentTime).map fun t =>
        { s with tellers := s.tellers.set departureEvent.tellerIndex t }
    | nextCustomer :: rest =>
      ((s.tellers[departureEvent.tellerIndex]!).stopWork currentTime).map fun t =>
        { s with
          tellers := s.tellers.set departureEvent.tellerIndex (t.startWork currentTime)
          bankLine := rest
          eventQueue := heapPush s.eventQueue
            (Event.departure
              ⟨currentTime + nextCustomer.arrivalEvent.transactionTime,
                departureEvent.tellerIndex⟩) }
  else none

/-- `void processEvent(Time currentTime, const Event& e)` — dispatch. -/
def processEvent (s : BankSim3000) (currentTime : Time) (e : Event) : Option BankSim3000 :=
  match e with
  | Event.arrival arrivalEvent => some (s.processArrival currentTime arrivalEvent)
  | Event.departure departureEvent => s.processDeparture currentTime departureEvent

/-- One iteration of `runSimulation`'s `while` loop: pop the earliest
event and process it at its own time. -/
def runStep (s : BankSim3000) : Option BankSim3000 :=
  match s.eventQueue[0]? with
  | none => none
  | some e =>
    processEvent { s with eventQueue := heapPop s.eventQueue } (get_event_time e) e

/-- Termination measure of the event loop: each processed arrival is worth
2 (it may schedule one departure or queue one customer), each pending
departure 1, each waiting customer 1.  Every iteration decreases this by
exactly one (proved below). -/
def simMeasure (s : BankSim3000) : Nat :=
  2 * s.eventQueue.toList.countP Event.isArrival +
    s.eventQueue.toList.countP (fun e => !e.isArrival) +
    s.bankLine.length

/-- The event loop with explicit fuel, additionally returning the number
of iterations performed and the (ghost) list of popped event times.
Returns `none` on a runtime fault or if the fuel is exhausted with events
still pending; fuel `simMeasure s` is proved sufficient below. -/
def runSimAux : Nat → BankSim3000 → Option (BankSim3000 × Nat × List Time)
  | 0, s => if s.eventQueue.size = 0 then some (s, 0, []) else none
  | fuel + 1, s =>
    if s.eventQueue.size = 0 then some (s, 0, [])
    else
      match s.eventQueue[0]?, s.runStep with
      | some e, some s' =>
        (runSimAux fuel s').map fun r => (r.1, r.2.1 + 1, get_event_time e :: r.2.2)
      | _, _ => none

/-- `void runSimulation()`: run the loop to completion (fuel
`simMeasure s` bounds the iteration count). -/
def runSimulation (s : BankSim3000) : Option BankSim3000 :=
  (runSimAux (simMeasure s) s).map (·.1)

/-- `SimulationResults gatherResults()`: `transform` each teller to its
`elapsedTimeWorking()`. -/
def gatherResults (s : BankSim3000) : SimulationResults :=
  ⟨s.tellers.map Teller.elapsedTimeWorking⟩

/-- `Time maxTellerBusyTime(size_t tellerCount)`: set up, run, and return
the maximum teller busy time, together with the mutated engine. -/
def maxTellerBusyTime (s : BankSim3000) (tellerCount : Nat) :
    Except String (Time × BankSim3000) := do
  let s1 ← s.setupSimulation tellerCount
  match s1.runSimulation with
  | none => Except.error "simulation fault"
  | some s2 =>
    match (s2.gatherResults).maxTellerBusyTime with
    | none => Except.error "max_element of empty results"
    | some m => Except.ok (m, s2)

end BankSim3000

/-! ## The `main` driver -/

/-- `SimulationInput SimulationInput00 = {{20, 6}, {22, 4}, {23, 2}, {30, 3}};` -/
def SimulationInput00 : SimulationInput :=
  [⟨20, 6⟩, ⟨22, 4⟩, ⟨23, 2⟩, ⟨30, 3⟩]

/-- `BankSim3000 bankSim(SimulationInput00);` -/
def bankSim : BankSim3000 := BankSim3000.mk0 SimulationInput00

/-- One `cout` line of `main`: call `maxTellerBusyTime` on the current
engine state and record its result, threading the mutated engine. -/
def mainStep (acc : List (Except String Time) × BankSim3000) (n : Nat) :
    List (Except String Time) × BankSim3000 :=
  match acc.2.maxTellerBusyTime n with
  | Except.ok (m, s') => (acc.1 ++ [Except.ok m], s')
  | Except.error e => (acc.1 ++ [Except.error e], acc.2)

/-- The five values printed by `main`, in order (teller counts 1..5). -/
def mainOutputs : List (Except String Time) :=
  ([1, 2, 3, 4, 5].foldl mainStep ([], bankSim)).1

/-! ## Specification-level (ghost) definitions

These are not part of the C++ source; they are the statements of the
bookkeeping invariants that the event loop maintains. -/

/-- The list of events currently stored in the engine's priority queue
(read off the backing array; order is heap order, the multiset is what
matters). -/
def BankSim3000.queueEvents (s : BankSim3000) : List Event :=
  s.eventQueue.toList

/-- The coupling invariant of the event loop:
every pending departure references an in-range, busy teller whose busy
period started no later than the departure fires; distinct pending
departures reference distinct tellers; every busy teller has a pending
departure; a non-empty bank line forces every teller busy; there is at
least one teller; all pending transaction times are non-negative; and
accumulated busy times are non-negative. -/
structure SimInv (s : BankSim3000) : Prop where
  depBound : ∀ d : DepartureEvent, Event.departure d ∈ s.queueEvents →
    d.tellerIndex < s.tellers.length
  depBusy : ∀ d : DepartureEvent, Event.departure d ∈ s.queueEvents →
    ∃ sb, (s.tellers[d.tellerIndex]!).startBusy = some sb ∧ sb ≤ d.departureTime
  depNodup : (s.queueEvents.filterMap Event.depIndex).Nodup
  busyDep : ∀ i, i < s.tellers.length → ((s.tellers[i]!).startBusy).isSome →
    ∃ d : DepartureEvent, Event.departure d ∈ s.queueEvents ∧ d.tellerIndex = i
  lineBusy : s.bankLine ≠ [] → ∀ i, i < s.tellers.length →
    ((s.tellers[i]!).startBusy).isSome
  posTellers : 1 ≤ s.tellers.length
  arrNonneg : ∀ a : ArrivalEvent, Event.arrival a ∈ s.queueEvents →
    0 ≤ a.transactionTime
  lineNonneg : ∀ c ∈ s.bankLine, 0 ≤ c.arrivalEvent.transactionTime
  elapsedNonneg : ∀ t ∈ s.tellers, 0 ≤ t.elapsedTimeBusy

/-- Work accounted to one pending event: the whole transaction for a
pending arrival, the in-progress busy span for a pending departure. -/
def eventWork (s : BankSim3000) : Event → Time
  | Event.arrival a => a.transactionTime
  | Event.departure d => d.departureTime - ((s.tellers[d.tellerIndex]!).startBusy.getD 0)

/-- The total-work ledger: finished busy time plus pending work.  It is
unchanged by every step of the loop and equals the total transaction time
of the input trace at the start of a run. -/
def workLedger (s : BankSim3000) : Time :=
  (s.tellers.map Teller.elapsedTimeBusy).sum
    + (s.queueEvents.map (eventWork s)).sum
    + (s.bankLine.map (fun c => c.arrivalEvent.transactionTime)).sum

/-- The states the event loop can pass through, starting from `s`:
reflexive-transitive closure of one `while`-loop iteration. -/
inductive Reaches : BankSim3000 → BankSim3000 → Prop
  | refl (s : BankSim3000) : Reaches s s
  | step (s s1 s2 : BankSim3000) : s.eventQueue.size ≠ 0 → s.runStep = some s1 →
      Reaches s1 s2 → Reaches s s2

/-! ## Concrete states of the reference run

Names for the states the engine passes through on the reference trace,
used to evaluate the run on concrete teller counts. -/

/-- The state produced by `setupSimulation n` on the reference trace. -/
def setupState (n : Nat) : BankSim3000 :=
  { simulationInput := SimulationInput00
    eventQueue := SimulationInput00.foldl (fun q a => heapPush q (Event.arrival a)) #[]
    bankLine := []
    tellers := List.replicate n Teller.init }

/-- A finished engine on the reference trace: empty queue and line, idle
tellers with the given accumulated busy times. -/
def finalState (elapsed : List Time) : BankSim3000 :=
  { simulationInput := SimulationInput00
    eventQueue := #[]
    bankLine := []
    tellers := elapsed.map fun e => { startBusy := none, elapsedTimeBusy := e } }

/-- The single-teller reference run after one loop iteration (arrival at
20 served, departure at 26 scheduled). -/
def stepState1 : BankSim3000 :=
  { simulationInput := SimulationInput00
    eventQueue := #[Event.arrival ⟨22, 4⟩, Event.departure ⟨26, 0⟩,
      Event.arrival ⟨23, 2⟩, Event.arrival ⟨30, 3⟩]
    bankLine := []
    tellers := [{ startBusy := some 20, elapsedTimeBusy := 0 }] }

/-- After two iterations (arrival at 22 queued in the line). -/
def stepState2 : BankSim3000 :=
  { simulationInput := SimulationInput00
    eventQueue := #[Event.arrival ⟨23, 2⟩, Event.departure ⟨26, 0⟩,
      Event.arrival ⟨30, 3⟩]
    bankLine := [⟨⟨22, 4⟩⟩]
    tellers := [{ startBusy := some 20, elapsedTimeBusy := 0 }] }

/-- After three iterations (arrival at 23 also queued; the departure at 26
is now at the root of the event queue). -/
def stepState3 : BankSim3000 :=
  { simulationInput := SimulationInput00
    eventQueue := #[Event.departure ⟨26, 0⟩, Event.arrival ⟨30, 3⟩]
    bankLine := [⟨⟨22, 4⟩⟩, ⟨⟨23, 2⟩⟩]
    tellers := [{ startBusy := some 20, elapsedTimeBusy := 0 }] }

/-- The two-teller reference run, iteration by iteration. -/
def twoState1 : BankSim3000 :=
  { simulationInput := SimulationInput00
    eventQueue := #[Event.arrival ⟨22, 4⟩, Event.departure ⟨26, 0⟩,
      Event.arrival ⟨23, 2⟩, Event.arrival ⟨30, 3⟩]
    bankLine := []
    tellers := [{ startBusy := some 20, elapsedTimeBusy := 0 },
      { startBusy := none, elapsedTimeBusy := 0 }] }

def twoState2 : BankSim3000 :=
  { simulationInput := SimulationInput00
    eventQueue := #[Event.arrival ⟨23, 2⟩, Event.departure ⟨26, 0⟩,
      Event.arrival ⟨30, 3⟩, Event.departure ⟨26, 1⟩]
    bankLine := []
    tellers := [{ startBusy := some 20, elapsedTimeBusy := 0 },
      { startBusy := some 22, elapsedTimeBusy := 0 }] }

def twoState3 : BankSim3000 :=
  { simulationInput := SimulationInput00
    eventQueue := #[Event.departure ⟨26, 0⟩, Event.departure ⟨26, 1⟩,
      Event.arrival ⟨30, 3⟩]
    bankLine := [⟨⟨23, 2⟩⟩]
    tellers := [{ startBusy := some 20, elapsedTimeBusy := 0 },
      { startBusy := some 22, elapsedTimeBusy := 0 }] }

def twoState4 : BankSim3000 :=
  { simulationInput := SimulationInput00
    eventQueue := #[Event.departure ⟨26, 1⟩, Event.arrival ⟨30, 3⟩,
      Event.departure ⟨28, 0⟩]
    bankLine := []
    tellers := [{ startBusy := some 26, elapsedTimeBusy := 6 },
      { startBusy := some 22, elapsedTimeBusy := 0 }] }

def twoState5 : BankSim3000 :=
  { simulationInput := SimulationInput00
    eventQueue := #[Event.departure ⟨28, 0⟩, Event.arrival ⟨30, 3⟩]
    bankLine := []
    tellers := [{ startBusy := some 26, elapsedTimeBusy := 6 },
      { startBusy := none, elapsedTimeBusy := 4 }] }

def twoState6 : BankSim3000 :=
  { simulationInput := SimulationInput00
    eventQueue := #[Event.arrival ⟨30, 3⟩]
    bankLine := []
    tellers := [{ startBusy := none, elapsedTimeBusy := 8 },
      { startBusy := none, elapsedTimeBusy := 4 }] }

def twoState7 : BankSim3000 :=
  { simulationInput := SimulationInput00
    eventQueue := #[Event.departure ⟨33, 0⟩]
    bankLine := []
    tellers := [{ startBusy := some 30, elapsedTimeBusy := 8 },
      { startBusy := none, elapsedTimeBusy := 4 }] }

theorem minChildIdx_lt {a : Array Event} {i : Nat} (h : 2 * i + 1 < a.size) :
    minChildIdx a i < a.size := by
  unfold minChildIdx
  split <;> omega

theorem lt_minChildIdx (a : Array Event) (i : Nat) : i < minChildIdx a i := by
  unfold minChildIdx
  split <;> omega

/-! ## Permutation facts about the heap operations

`heapPush`/`heapPop` act on the multiset of stored events exactly as
`priority_queue::push`/`pop` do: push adds the new event, pop removes the
element that was at the root.  The sift procedures only swap entries. -/

theorem cons_set_perm {α : Type} [Inhabited α] :
    ∀ (t : List α) (k : Nat) (x : α), k < t.length →
      ((t[k]!) :: t.set k x).Perm (x :: t)
  | [], k, _, hk => absurd hk (by simp)
  | b :: t, 0, x, hk => by
    rw [getElem!_pos (b :: t) 0 hk]
    exact List.Perm.swap x b t
  | b :: t, k + 1, x, hk => by
    rw [getElem!_pos (b :: t) (k + 1) hk]
    have hk' : k < t.length := by simpa using hk
    have ih := cons_set_perm t k x hk'
    rw [getElem!_pos t k hk'] at ih
    show ((b :: t)[k + 1] :: b :: t.set k x).Perm (x :: b :: t)
    have h1 : ((b :: t)[k + 1] :: b :: t.set k x).Perm (b :: (b :: t)[k + 1] :: t.set k x) :=
      List.Perm.swap b _ _
    have h2 : (b :: (b :: t)[k + 1] :: t.set k x).Perm (b :: x :: t) := by
      apply List.Perm.cons
      simpa using ih
    exact (h1.trans h2).trans (List.Perm.swap x b t)

theorem set_set_perm {α : Type} [Inhabited α] :
    ∀ (l : List α) (i j : Nat), i < l.length → j < l.length →
      (((l.set i (l[j]!)).set j (l[i]!))).Perm l
  | [], i, _, hi, _ => absurd hi (by simp)
  | a :: t, 0, 0, _, _ => by
    rw [getElem!_pos (a :: t) 0 (by simp)]
    simp
  | a :: t, 0, k + 1, hi, hj => by
    have hk : k < t.length := by simpa using hj
    rw [getElem!_pos (a :: t) 0 hi, getElem!_pos (a :: t) (k + 1) hj]
    show ((t[k] :: t).set (k + 1) a).Perm (a :: t)
    show (t[k] :: t.set k a).Perm (a :: t)
    have := cons_set_perm t k a hk
    rwa [getElem!_pos t k hk] at this
  | a :: t, m + 1, 0, hi, hj => by
    have hm : m < t.length := by simpa using hi
    rw [getElem!_pos (a :: t) 0 hj, getElem!_pos (a :: t) (m + 1) hi]
    show (((a :: t.set m a)).set 0 t[m]).Perm (a :: t)
    show (t[m] :: t.set m a).Perm (a :: t)
    have := cons_set_perm t m a hm
    rwa [getElem!_pos t m hm] at this
  | a :: t, m + 1, k + 1, hi, hj => by
    have hm : m < t.length := by simpa using hi
    have hk : k < t.length := by simpa using hj
    rw [getElem!_pos (a :: t) (k + 1) hj, getElem!_pos (a :: t) (m + 1) hi]
    show (a :: ((t.set m t[k]).set k t[m])).Perm (a :: t)
    apply List.Perm.cons
    have := set_set_perm t m k hm hk
    rwa [getElem!_pos t k hk, getElem!_pos t m hm] at this

/-- Swapping two entries of the backing array permutes its contents. -/
theorem swap_toList_perm (a : Array Event) (i j : Fin a.size) :
    ((a.swap i j).toList).Perm a.toList := by
  have hi : (i : Nat) < a.toList.length := by simp
  have hj : (j : Nat) < a.toList.length := by simp
  have h := set_set_perm a.toList i j hi hj
  rw [getElem!_pos a.toList (i : Nat) hi, getElem!_pos a.toList (j : Nat) hj] at h
  rw [Array.toList_swap, Array.get_eq_getElem, Array.get_eq_getElem,
    ← Array.getElem_toList i.isLt, ← Array.getElem_toList j.isLt]
  exact h

theorem siftUpFuel_perm : ∀ (fuel : Nat) (a : Array Event) (i : Nat),
    ((siftUpFuel fuel a i).toList).Perm a.toList
  | 0, _, _ => List.Perm.refl _
  | fuel + 1, a, i => by
    unfold siftUpFuel
    split
    · split
      · exact (siftUpFuel_perm fuel _ _).trans (swap_toList_perm a _ _)
      · exact List.Perm.refl _
    · exact List.Perm.refl _

theorem siftDownFuel_perm : ∀ (fuel : Nat) (a : Array Event) (i : Nat),
    ((siftDownFuel fuel a i).toList).Perm a.toList
  | 0, _, _ => List.Perm.refl _
  | fuel + 1, a, i => by
    unfold siftDownFuel
    split
    · split
      · exact List.Perm.refl _
      · exact (siftDownFuel_perm fuel _ _).trans (swap_toList_perm a _ _)
    · exact List.Perm.refl _

/-- `heapPush` adds exactly the pushed event to the stored multiset. -/
theorem heapPush_perm (a : Array Event) (e : Event) :
    ((heapPush a e).toList).Perm (e :: a.toList) := by
  unfold heapPush
  have h1 := siftUpFuel_perm a.size (a.push e) a.size
  rw [Array.push_toList] at h1
  exact h1.trans (List.perm_middle.trans (by simp))

theorem getElem!_mem_toList {a : Array Event} {i : Nat} (h : i < a.size) :
    a[i]! ∈ a.toList := by
  rw [getElem!_pos a i h, ← Array.getElem_toList h]
  exact List.getElem_mem _

theorem dropLast_set_last {α : Type} (t : List α) (x : α) :
    (t.set (t.length - 1) x).dropLast = t.dropLast := by
  apply List.ext_getElem
  · simp
  · intro n h1 h2
    have hn : n < t.length - 1 := by
      simp at h2
      omega
    rw [List.getElem_dropLast, List.getElem_dropLast, List.getElem_set]
    have hne : ¬ (t.length - 1 = n) := by omega
    simp [hne]

theorem cons_dropLast_getLast_perm {α : Type} (t : List α) (ht : t ≠ []) :
    (t.getLast ht :: t.dropLast).Perm t := by
  have h := List.dropLast_append_getLast ht
  have p : (t.getLast ht :: t.dropLast).Perm (t.dropLast ++ [t.getLast ht]) := by
    have p0 := (@List.perm_middle α (t.getLast ht) t.dropLast []).symm
    simpa using p0
  rw [h] at p
  exact p

theorem swap_pop_perm_list {α : Type} [Inhabited α] (l : List α) (h2 : 2 ≤ l.length) :
    ((l[0]!) :: ((l.set 0 (l[l.length - 1]!)).set (l.length - 1) (l[0]!)).dropLast).Perm l := by
  rcases l with _ | ⟨x, _ | ⟨b, t⟩⟩
  · simp at h2
  · simp at h2
  · have hlen : (x :: b :: t).length - 1 = t.length + 1 := by simp
    have hx : (x :: b :: t)[0]! = x := by
      rw [getElem!_pos (x :: b :: t) 0 (by simp)]
      rfl
    have hbt : (b :: t) ≠ [] := by simp
    have hy : (x :: b :: t)[(x :: b :: t).length - 1]! = (b :: t).getLast hbt := by
      rw [hlen, getElem!_pos (x :: b :: t) (t.length + 1) (by simp),
        List.getElem_cons_succ, List.getLast_eq_getElem]
      simp
    rw [hx, hy, hlen]
    have hset0 : (x :: b :: t).set 0 ((b :: t).getLast hbt) = (b :: t).getLast hbt :: b :: t :=
      rfl
    rw [hset0]
    have hset1 : ((b :: t).getLast hbt :: b :: t).set (t.length + 1) x =
        (b :: t).getLast hbt :: ((b :: t).set t.length x) := rfl
    rw [hset1]
    have hm : (b :: t).set t.length x ≠ [] :=
      List.ne_nil_of_length_pos (by simp)
    rw [List.dropLast_cons_of_ne_nil hm]
    have hds : ((b :: t).set t.length x).dropLast = (b :: t).dropLast := by
      have hidx : t.length = (b :: t).length - 1 := by simp
      rw [hidx, dropLast_set_last]
    rw [hds]
    exact List.Perm.cons x (cons_dropLast_getLast_perm (b :: t) hbt)

/-- `heapPop` removes exactly the root element from the stored multiset. -/
theorem heapPop_perm (a : Array Event) (h : a.size ≠ 0) :
    (a[0]! :: (heapPop a).toList).Perm a.toList := by
  unfold heapPop
  split
  · rename_i h1
    have h0 : (0 : Nat) < a.size := by omega
    have hl : a.toList.length = 1 := by simp; omega
    rcases List.length_eq_one.1 hl with ⟨x, hx⟩
    have hx0 : a[0]! = x := by
      have hm := getElem!_mem_toList h0
      rw [hx] at hm
      simpa using hm
    rw [Array.toList_pop, hx, hx0]
    simp
  · rename_i h1
    have h0 : (0 : Nat) < a.size := by omega
    have hlast : a.size - 1 < a.size := by omega
    have hlen : a.toList.length = a.size := by simp
    refine List.Perm.trans (List.Perm.cons _ (siftDownFuel_perm _ _ _)) ?_
    rw [Array.toList_pop, Array.toList_swap]
    have hyv : a.get ⟨a.size - 1, by omega⟩ = a.toList[a.toList.length - 1]! := by
      have e1 : a.toList[a.toList.length - 1]! = a.toList[a.size - 1]! := by rw [hlen]
      rw [e1, getElem!_pos a.toList (a.size - 1) (by omega), Array.get_eq_getElem]
      exact (Array.getElem_toList hlast).symm
    have hxv : a.get ⟨0, by omega⟩ = a.toList[0]! := by
      rw [getElem!_pos a.toList 0 (by omega), Array.get_eq_getElem]
      exact (Array.getElem_toList h0).symm
    have hh : a[0]! = a.toList[0]! := by
      rw [getElem!_pos a 0 h0, getElem!_pos a.toList 0 (by omega)]
      exact (Array.getElem_toList h0).symm
    rw [hyv, hxv, hh]
    simp only [Fin.val_mk]
    rw [show a.size - 1 = a.toList.length - 1 by omega]
    exact swap_pop_perm_list a.toList (by omega)

/-! ## Heap-order correctness

`heapPush`/`heapPop` preserve the binary min-heap invariant `HeapProp`,
and under `HeapProp` the root is an earliest event.  This is the standard
correctness argument for `push_heap`/`pop_heap`. -/

theorem compareEvent_eq_true {e1 e2 : Event} :
    compareEvent e1 e2 = true ↔ get_event_time e2 < get_event_time e1 := by
  simp [compareEvent]

theorem compareEvent_eq_false {e1 e2 : Event} :
    compareEvent e1 e2 = false ↔ get_event_time e1 ≤ get_event_time e2 := by
  simp [compareEvent]

theorem getElem!_swap_fst (a : Array Event) (i j : Nat) (hi : i < a.size) (hj : j < a.size) :
    (a.swap ⟨i, hi⟩ ⟨j, hj⟩)[i]! = a[j]! := by
  have hi' : i < (a.swap ⟨i, hi⟩ ⟨j, hj⟩).size := by
    rw [Array.size_swap]
    exact hi
  rw [getElem!_pos (a.swap ⟨i, hi⟩ ⟨j, hj⟩) i hi', Array.getElem_swap, getElem!_pos a j hj]
  simp

theorem getElem!_swap_snd (a : Array Event) (i j : Nat) (hi : i < a.size) (hj : j < a.size) :
    (a.swap ⟨i, hi⟩ ⟨j, hj⟩)[j]! = a[i]! := by
  have hj' : j < (a.swap ⟨i, hi⟩ ⟨j, hj⟩).size := by
    rw [Array.size_swap]
    exact hj
  rw [getElem!_pos (a.swap ⟨i, hi⟩ ⟨j, hj⟩) j hj', Array.getElem_swap, getElem!_pos a i hi]
  rcases eq_or_ne j i with h | h
  · subst h
    simp
  · simp [h]

theorem getElem!_swap_other (a : Array Event) (i j k : Nat) (hi : i < a.size) (hj : j < a.size)
    (hk : k < a.size) (hki : k ≠ i) (hkj : k ≠ j) :
    (a.swap ⟨i, hi⟩ ⟨j, hj⟩)[k]! = a[k]! := by
  have hk' : k < (a.swap ⟨i, hi⟩ ⟨j, hj⟩).size := by
    rw [Array.size_swap]
    exact hk
  rw [getElem!_pos (a.swap ⟨i, hi⟩ ⟨j, hj⟩) k hk', Array.getElem_swap, getElem!_pos a k hk]
  simp [hki, hkj]

theorem getElem!_push_lt (a : Array Event) (x : Event) (k : Nat) (hk : k < a.size) :
    (a.push x)[k]! = a[k]! := by
  have hk' : k < (a.push x).size := by
    rw [Array.size_push]
    omega
  rw [getElem!_pos (a.push x) k hk', Array.getElem_push, dif_pos hk, getElem!_pos a k hk]

theorem getElem!_pop (a : Array Event) (k : Nat) (hk : k < a.pop.size) :
    a.pop[k]! = a[k]! := by
  have hk' : k < a.size := by
    rw [Array.size_pop] at hk
    omega
  rw [getElem!_pos a.pop k hk, Array.getElem_pop, getElem!_pos a k hk']

/-- Sift-up correctness: if the array is a heap everywhere except possibly
at the edge into `i`, and the grandparent bound holds for `i`'s children,
then sifting up from `i` restores the full heap invariant. -/
theorem siftUpFuel_heapProp : ∀ (fuel : Nat) (a : Array Event) (i : Nat),
    i ≤ fuel →
    (∀ j, j < a.size → 0 < j → j ≠ i →
      get_event_time (a[(j - 1) / 2]!) ≤ get_event_time (a[j]!)) →
    (0 < i → ∀ j, j < a.size → 0 < j → (j - 1) / 2 = i →
      get_event_time (a[(i - 1) / 2]!) ≤ get_event_time (a[j]!)) →
    HeapProp (siftUpFuel fuel a i)
  | 0, a, i, hfuel, hA, _ => by
    have hi0 : i = 0 := by omega
    subst hi0
    intro j hj h0
    exact hA j hj h0 (by omega)
  | fuel + 1, a, i, hfuel, hA, hB => by
    unfold siftUpFuel
    split
    · rename_i h
      split
      · rename_i hcmp
        have hps : (i - 1) / 2 < a.size := by omega
        have hlt : get_event_time (a[i]!) < get_event_time (a[(i - 1) / 2]!) :=
          compareEvent_eq_true.1 hcmp
        have hsz : (a.swap ⟨(i - 1) / 2, by omega⟩ ⟨i, h.2⟩).size = a.size :=
          Array.size_swap _ _ _
        refine siftUpFuel_heapProp fuel _ ((i - 1) / 2) (by omega) ?_ ?_
        · intro j hj hj0 hjne
          rw [hsz] at hj
          rcases eq_or_ne j i with hji | hji
          · subst hji
            rw [getElem!_swap_snd a ((j - 1) / 2) j hps h.2,
              getElem!_swap_fst a ((j - 1) / 2) j hps h.2]
            exact le_of_lt hlt
          · rw [getElem!_swap_other a ((i - 1) / 2) i j hps h.2 hj hjne hji]
            rcases eq_or_ne ((j - 1) / 2) ((i - 1) / 2) with hq | hq
            · rw [hq, getElem!_swap_fst a ((i - 1) / 2) i hps h.2]
              have h1 := hA j hj hj0 hji
              rw [hq] at h1
              exact le_trans (le_of_lt hlt) h1
            · rcases eq_or_ne ((j - 1) / 2) i with hqi | hqi
              · rw [hqi, getElem!_swap_snd a ((i - 1) / 2) i hps h.2]
                exact hB h.1 j hj hj0 hqi
              · rw [getElem!_swap_other a ((i - 1) / 2) i ((j - 1) / 2) hps h.2
                  (by omega) hq hqi]
                exact hA j hj hj0 hji
        · intro hp0 j hj hj0 hpar
          rw [hsz] at hj
          have hq' : ((i - 1) / 2 - 1) / 2 ≠ (i - 1) / 2 := by omega
          have hq'i : ((i - 1) / 2 - 1) / 2 ≠ i := by omega
          rw [getElem!_swap_other a ((i - 1) / 2) i (((i - 1) / 2 - 1) / 2) hps h.2
            (by omega) hq' hq'i]
          rcases eq_or_ne j i with hji | hji
          · subst hji
            rw [getElem!_swap_snd a ((j - 1) / 2) j hps h.2]
            exact hA ((j - 1) / 2) hps hp0 (by omega)
          · have hjp : j ≠ (i - 1) / 2 := by omega
            rw [getElem!_swap_other a ((i - 1) / 2) i j hps h.2 hj hjp hji]
            have h1 := hA j hj hj0 hji
            rw [hpar] at h1
            exact le_trans (hA ((i - 1) / 2) hps hp0 (by omega)) h1
      · rename_i hcmp
        have hle : get_event_time (a[(i - 1) / 2]!) ≤ get_event_time (a[i]!) :=
          compareEvent_eq_false.1 (by simpa using hcmp)
        intro j hj hj0
        rcases eq_or_ne j i with hji | hji
        · subst hji
          exact hle
        · exact hA j hj hj0 hji
    · rename_i h
      intro j hj hj0
      exact hA j hj hj0 (by omega)

/-- Pushing onto a heap yields a heap. -/
theorem heapPush_heapProp (a : Array Event) (e : Event) (hp : HeapProp a) :
    HeapProp (heapPush a e) := by
  unfold heapPush
  refine siftUpFuel_heapProp a.size (a.push e) a.size (le_refl _) ?_ ?_
  · intro j hj hj0 hjne
    rw [Array.size_push] at hj
    have hj' : j < a.size := by omega
    rw [getElem!_push_lt a e j hj', getElem!_push_lt a e ((j - 1) / 2) (by omega)]
    exact hp j hj' hj0
  · intro h0 j hj hj0 hpar
    rw [Array.size_push] at hj
    omega

/-- The preferred child is no later than either child of `i`. -/
theorem minChildIdx_min (a : Array Event) (i : Nat) (hl : 2 * i + 1 < a.size) :
    ∀ j, j < a.size → (j - 1) / 2 = i → 0 < j →
      get_event_time (a[minChildIdx a i]!) ≤ get_event_time (a[j]!) := by
  intro j hj hpar hj0
  have hjc : j = 2 * i + 1 ∨ j = 2 * i + 2 := by omega
  unfold minChildIdx
  split
  · rename_i h
    have hlt : get_event_time (a[2 * i + 2]!) < get_event_time (a[2 * i + 1]!) :=
      compareEvent_eq_true.1 h.2
    rcases hjc with hj1 | hj1 <;> subst hj1
    · exact le_of_lt hlt
    · exact le_refl _
  · rename_i h
    rcases hjc with hj1 | hj1 <;> subst hj1
    · exact le_refl _
    · have hnc : ¬ compareEvent (a[2 * i + 1]!) (a[2 * i + 2]!) = true := by
        intro hc
        exact h ⟨hj, hc⟩
      exact compareEvent_eq_false.1 (by simpa using hnc)

theorem minChildIdx_parent (a : Array Event) (i : Nat) : (minChildIdx a i - 1) / 2 = i := by
  unfold minChildIdx
  split <;> omega

/-- Sift-down correctness: if the array is a heap on every edge whose
parent is not `i`, and the grandparent bound holds for `i`'s children,
then sifting down from `i` restores the full heap invariant. -/
theorem siftDownFuel_heapProp : ∀ (fuel : Nat) (a : Array Event) (i : Nat),
    a.size ≤ fuel + i →
    (∀ j, j < a.size → 0 < j → (j - 1) / 2 ≠ i →
      get_event_time (a[(j - 1) / 2]!) ≤ get_event_time (a[j]!)) →
    (0 < i → ∀ j, j < a.size → (j - 1) / 2 = i →
      get_event_time (a[(i - 1) / 2]!) ≤ get_event_time (a[j]!)) →
    HeapProp (siftDownFuel fuel a i)
  | 0, a, i, hfuel, hA, _ => by
    show HeapProp a
    intro j hj hj0
    exact hA j hj hj0 (by omega)
  | fuel + 1, a, i, hfuel, hA, hB => by
    unfold siftDownFuel
    split
    · rename_i hl
      split
      · rename_i hcmp
        have hlt : get_event_time (a[i]!) < get_event_time (a[minChildIdx a i]!) :=
          compareEvent_eq_true.1 hcmp
        intro j hj hj0
        rcases eq_or_ne ((j - 1) / 2) i with hq | hq
        · rw [hq]
          exact le_trans (le_of_lt hlt) (minChildIdx_min a i hl j hj hq hj0)
        · exact hA j hj hj0 hq
      · rename_i hcmp
        have hle : get_event_time (a[minChildIdx a i]!) ≤ get_event_time (a[i]!) :=
          compareEvent_eq_false.1 (by simpa using hcmp)
        have hc_lt : minChildIdx a i < a.size := minChildIdx_lt hl
        have hic : i < minChildIdx a i := lt_minChildIdx a i
        have hcpar : (minChildIdx a i - 1) / 2 = i := minChildIdx_parent a i
        have hsz : (a.swap ⟨i, by omega⟩ ⟨minChildIdx a i, minChildIdx_lt hl⟩).size = a.size :=
          Array.size_swap _ _ _
        refine siftDownFuel_heapProp fuel _ (minChildIdx a i) (by omega) ?_ ?_
        · intro j hj hj0 hjq
          rw [hsz] at hj
          rcases eq_or_ne j i with hji | hji
          · subst hji
            rw [getElem!_swap_fst a j (minChildIdx a j) (by omega) (minChildIdx_lt hl)]
            rw [getElem!_swap_other a j (minChildIdx a j) ((j - 1) / 2) (by omega)
              (minChildIdx_lt hl) (by omega) (by omega) hjq]
            exact hB hj0 (minChildIdx a j) (minChildIdx_lt hl) (minChildIdx_parent a j)
          · rcases eq_or_ne j (minChildIdx a i) with hjc | hjc
            · rw [hjc, hcpar]
              rw [getElem!_swap_fst a i (minChildIdx a i) (by omega) hc_lt]
              rw [getElem!_swap_snd a i (minChildIdx a i) (by omega) hc_lt]
              exact hle
            · rw [getElem!_swap_other a i (minChildIdx a i) j (by omega) hc_lt hj hji hjc]
              rcases eq_or_ne ((j - 1) / 2) i with hq | hq
              · rw [hq, getElem!_swap_fst a i (minChildIdx a i) (by omega) hc_lt]
                exact minChildIdx_min a i hl j hj hq hj0
              · rw [getElem!_swap_other a i (minChildIdx a i) ((j - 1) / 2) (by omega) hc_lt
                  (by omega) hq hjq]
                exact hA j hj hj0 hq
        · intro hc0 j hj hjq
          rw [hsz] at hj
          rw [hcpar]
          rw [getElem!_swap_fst a i (minChildIdx a i) (by omega) hc_lt]
          have hjgt : minChildIdx a i < j := by omega
          rw [getElem!_swap_other a i (minChildIdx a i) j (by omega) hc_lt hj
            (by omega) (by omega)]
          have h1 := hA j hj (by omega) (by omega)
          rw [hjq] at h1
          exact h1
    · rename_i hl
      intro j hj hj0
      exact hA j hj hj0 (by omega)

/-- Popping from a heap yields a heap. -/
theorem heapPop_heapProp (a : Array Event) (hp : HeapProp a) : HeapProp (heapPop a) := by
  unfold heapPop
  split
  · rename_i h1
    intro j hj hj0
    rw [Array.size_pop] at hj
    omega
  · rename_i h1
    have h0 : (0 : Nat) < a.size := by omega
    have hlast : a.size - 1 < a.size := by omega
    have hsz : ((a.swap ⟨0, by omega⟩ ⟨a.size - 1, by omega⟩).pop).size = a.size - 1 := by
      rw [Array.size_pop, Array.size_swap]
    refine siftDownFuel_heapProp (a.size - 1) _ 0 (by omega) ?_ ?_
    · intro j hj hj0 hjq
      rw [hsz] at hj
      have hq_lt : (j - 1) / 2 < a.size - 1 := by omega
      rw [getElem!_pop _ j (by rw [hsz]; omega), getElem!_pop _ ((j - 1) / 2) (by rw [hsz]; omega)]
      rw [getElem!_swap_other a 0 (a.size - 1) j h0 hlast (by omega) (by omega) (by omega)]
      rw [getElem!_swap_other a 0 (a.size - 1) ((j - 1) / 2) h0 hlast (by omega) hjq (by omega)]
      exact hp j (by omega) hj0
    · intro h; omega

/-- In a heap the root is an earliest event. -/
theorem heapProp_min (a : Array Event) (hp : HeapProp a) :
    ∀ j, j < a.size → get_event_time (a[0]!) ≤ get_event_time (a[j]!) := by
  intro j
  induction j using Nat.strong_induction_on with
  | _ j ih =>
    intro hj
    rcases Nat.eq_zero_or_pos j with h0 | h0
    · subst h0
      exact le_refl _
    · exact le_trans (ih ((j - 1) / 2) (by omega) (by omega)) (hp j hj h0)

/-- Every stored event is no earlier than the root of a heap. -/
theorem heapProp_min_mem (a : Array Event) (hp : HeapProp a) :
    ∀ e ∈ a.toList, get_event_time (a[0]!) ≤ get_event_time e := by
  intro e he
  rcases List.getElem_of_mem he with ⟨j, hj, hje⟩
  have hj' : j < a.size := by
    have := Array.length_toList (l := a)
    omega
  have : a.toList[j] = a[j]! := by
    rw [getElem!_pos a j hj', Array.getElem_toList]
  rw [← hje, this]
  exact heapProp_min a hp j hj'

/-! ## List and search utilities -/

theorem getElem!_set_self {α : Type} [Inhabited α] (l : List α) (i : Nat) (x : α)
    (hi : i < l.length) : (l.set i x)[i]! = x := by
  have hi' : i < (l.set i x).length := by
    rw [List.length_set]
    exact hi
  rw [getElem!_pos (l.set i x) i hi', List.getElem_set, if_pos rfl]

theorem getElem!_set_ne {α : Type} [Inhabited α] (l : List α) (i j : Nat) (x : α)
    (hne : i ≠ j) : (l.set i x)[j]! = l[j]! := by
  rcases Nat.lt_or_ge j l.length with hj | hj
  · have hj' : j < (l.set i x).length := by
      rw [List.length_set]
      exact hj
    rw [getElem!_pos (l.set i x) j hj', List.getElem_set, if_neg hne, getElem!_pos l j hj]
  · rw [getElem!_neg (l.set i x) j (by rw [List.length_set]; omega), getElem!_neg l j (by omega)]

theorem getElem!_replicate {α : Type} [Inhabited α] (n : Nat) (x : α) (i : Nat)
    (hi : i < n) : (List.replicate n x)[i]! = x := by
  have hi' : i < (List.replicate n x).length := by
    rw [List.length_replicate]
    exact hi
  rw [getElem!_pos (List.replicate n x) i hi', List.getElem_replicate]

theorem sum_map_set {α : Type} [Inhabited α] (f : α → Int) :
    ∀ (l : List α) (i : Nat) (x : α), i < l.length →
      ((l.set i x).map f).sum + f (l[i]!) = (l.map f).sum + f x
  | [], i, _, hi => absurd hi (by simp)
  | b :: t, 0, x, _ => by
    rw [getElem!_pos (b :: t) 0 (by simp)]
    show (f x :: t.map f).sum + f b = (f b :: t.map f).sum + f x
    rw [List.sum_cons, List.sum_cons]
    ring
  | b :: t, i + 1, x, hi => by
    have hi' : i < t.length := by simpa using hi
    rw [getElem!_pos (b :: t) (i + 1) hi]
    show (f b :: (t.set i x).map f).sum + f ((b :: t)[i + 1]) = (f b :: t.map f).sum + f x
    rw [List.getElem_cons_succ, List.sum_cons, List.sum_cons]
    have ih := sum_map_set f t i x hi'
    rw [getElem!_pos t i hi'] at ih
    omega

/-- The first-available-teller search returns a valid, available index. -/
theorem searchAvailableTellersAux_some :
    ∀ {tl : List Teller} {i : Nat}, BankSim3000.searchAvailableTellersAux tl = some i →
      i < tl.length ∧ (tl[i]!).isAvailable = true
  | [], i, h => by simp [BankSim3000.searchAvailableTellersAux] at h
  | t :: ts, i, h => by
    unfold BankSim3000.searchAvailableTellersAux at h
    split at h
    · rename_i ht
      have : i = 0 := by simpa using h.symm
      subst this
      refine ⟨by simp, ?_⟩
      rw [getElem!_pos (t :: ts) 0 (by simp)]
      exact ht
    · rename_i ht
      rcases Option.map_eq_some'.1 h with ⟨i', hi', rfl⟩
      have ih := searchAvailableTellersAux_some hi'
      refine ⟨by simp; omega, ?_⟩
      rw [getElem!_pos (t :: ts) (i' + 1) (by simp; omega), List.getElem_cons_succ,
        ← getElem!_pos ts i' ih.1]
      exact ih.2

/-- If the search fails, no teller is available. -/
theorem searchAvailableTellersAux_none :
    ∀ {tl : List Teller}, BankSim3000.searchAvailableTellersAux tl = none →
      ∀ t ∈ tl, t.isAvailable = false
  | [], _, t, ht => absurd ht (by simp)
  | t0 :: ts, h, t, ht => by
    unfold BankSim3000.searchAvailableTellersAux at h
    split at h
    · exact absurd h (by simp)
    · rename_i ht0
      rcases List.mem_cons.1 ht with rfl | hmem
      · simpa using ht0
      · exact searchAvailableTellersAux_none (by simpa using h) t hmem

/-! ## Preservation of the invariant by one loop iteration -/

theorem getElem!_mem_list {α : Type} [Inhabited α] (l : List α) (i : Nat) (hi : i < l.length) :
    l[i]! ∈ l := by
  rw [getElem!_pos l i hi]
  exact List.getElem_mem _

theorem isAvailable_iff_none {t : Teller} : t.isAvailable = true ↔ t.startBusy = none := by
  cases h : t.startBusy <;> simp [Teller.isAvailable, h]

theorem isAvailable_false_iff {t : Teller} : t.isAvailable = false ↔ (t.startBusy).isSome := by
  cases h : t.startBusy <;> simp [Teller.isAvailable, h]

theorem eventWork_eq_of_tellers (s s' : BankSim3000) (h : s'.tellers = s.tellers) :
    eventWork s' = eventWork s := by
  funext e
  cases e with
  | arrival a => rfl
  | departure d => simp [eventWork, h]

theorem eventWork_set_ne (s s' : BankSim3000) (i : Nat) (tel : Teller)
    (h : s'.tellers = s.tellers.set i tel) (e : Event)
    (hne : ∀ d' : DepartureEvent, e = Event.departure d' → d'.tellerIndex ≠ i) :
    eventWork s' e = eventWork s e := by
  cases e with
  | arrival a => rfl
  | departure d =>
    have hd := hne d rfl
    simp only [eventWork, h]
    rw [getElem!_set_ne s.tellers i d.tellerIndex tel (fun hc => hd hc.symm)]

theorem depIndex_mem {d : DepartureEvent} {L : List Event} (h : Event.departure d ∈ L) :
    d.tellerIndex ∈ L.filterMap Event.depIndex :=
  List.mem_filterMap.2 ⟨Event.departure d, h, rfl⟩

theorem filterMap_depIndex_arrival (a : ArrivalEvent) (L : List Event) :
    (Event.arrival a :: L).filterMap Event.depIndex = L.filterMap Event.depIndex := by
  simp [List.filterMap_cons, Event.depIndex]

theorem filterMap_depIndex_departure (d : DepartureEvent) (L : List Event) :
    (Event.departure d :: L).filterMap Event.depIndex =
      d.tellerIndex :: L.filterMap Event.depIndex := by
  simp [List.filterMap_cons, Event.depIndex]

/-- One loop iteration, case: the popped event is an arrival and a teller
is available.  The teller starts work and its departure is scheduled. -/
theorem runStep_spec_arrival_some (s : BankSim3000) (hq : s.eventQueue.size ≠ 0)
    (hInv : SimInv s) (a : ArrivalEvent) (hE : s.eventQueue[0]! = Event.arrival a)
    (i : Nat)
    (hsearch : BankSim3000.searchAvailableTellersAux s.tellers = some i) :
    ∃ s', s.runStep = some s' ∧ SimInv s' ∧
      s'.simMeasure + 1 = s.simMeasure ∧
      workLedger s' = workLedger s ∧
      s'.simulationInput = s.simulationInput ∧
      s'.tellers.length = s.tellers.length := by
  have h0 : (0 : Nat) < s.eventQueue.size := Nat.pos_of_ne_zero hq
  have hperm0 := heapPop_perm s.eventQueue hq
  rw [hE] at hperm0
  have hmem_top : Event.arrival a ∈ s.queueEvents := by
    rw [← hE]
    exact getElem!_mem_toList h0
  have hsub : ∀ x, x ∈ (heapPop s.eventQueue).toList → x ∈ s.queueEvents := by
    intro x hx
    exact hperm0.mem_iff.1 (List.mem_cons_of_mem _ hx)
  obtain ⟨hilen, hiavail⟩ := searchAvailableTellersAux_some hsearch
  have hidle : (s.tellers[i]!).startBusy = none := isAvailable_iff_none.1 hiavail
  have hnodep : ∀ d' : DepartureEvent, Event.departure d' ∈ s.queueEvents →
      d'.tellerIndex ≠ i := by
    intro d' hd' heq
    obtain ⟨sb, hsb, _⟩ := hInv.depBusy d' hd'
    rw [heq, hidle] at hsb
    exact Option.noConfusion hsb
  have htxn : 0 ≤ a.transactionTime := hInv.arrNonneg a hmem_top
  have hline : s.bankLine = [] := by
    by_cases hbl : s.bankLine = []
    · exact hbl
    · have hb := hInv.lineBusy hbl i hilen
      rw [hidle] at hb
      simp at hb
  have hpushperm := heapPush_perm (heapPop s.eventQueue)
    (Event.departure ⟨a.arrivalTime + a.transactionTime, i⟩)
  refine ⟨{ s with
      eventQueue := heapPush (heapPop s.eventQueue)
        (Event.departure ⟨a.arrivalTime + a.transactionTime, i⟩),
      tellers := s.tellers.set i ((s.tellers[i]!).startWork a.arrivalTime) },
    ?_, ?_, ?_, ?_, rfl, by
      show (s.tellers.set i _).length = s.tellers.length
      rw [List.length_set]⟩
  · -- the step equation
    unfold BankSim3000.runStep
    rw [getElem?_pos s.eventQueue 0 h0, ← getElem!_pos s.eventQueue 0 h0, hE]
    show BankSim3000.processEvent _ _ _ = _
    unfold BankSim3000.processEvent BankSim3000.processArrival
      BankSim3000.searchAvailableTellers
    rw [show ({ s with eventQueue := heapPop s.eventQueue } : BankSim3000).tellers
      = s.tellers from rfl, hsearch]
    rfl
  · -- the invariant
    have hmem' : ∀ x, x ∈ ({ s with
        eventQueue := heapPush (heapPop s.eventQueue)
          (Event.departure ⟨a.arrivalTime + a.transactionTime, i⟩),
        tellers := s.tellers.set i ((s.tellers[i]!).startWork a.arrivalTime) } :
          BankSim3000).queueEvents ↔
        (x = Event.departure ⟨a.arrivalTime + a.transactionTime, i⟩ ∨
          x ∈ (heapPop s.eventQueue).toList) := by
      intro x
      show x ∈ (heapPush (heapPop s.eventQueue) _).toList ↔ _
      rw [hpushperm.mem_iff, List.mem_cons]
    refine ⟨?_, ?_, ?_, ?_, ?_, ?_, ?_, ?_, ?_⟩
    · -- depBound
      intro d hd
      rw [hmem'] at hd
      show d.tellerIndex < (s.tellers.set i _).length
      rw [List.length_set]
      rcases hd with hd | hd
      · have : d = ⟨a.arrivalTime + a.transactionTime, i⟩ := by
          injection hd
        rw [this]
        exact hilen
      · exact hInv.depBound d (hsub _ hd)
    · -- depBusy
      intro d hd
      rw [hmem'] at hd
      rcases hd with hd | hd
      · have hdd : d = ⟨a.arrivalTime + a.transactionTime, i⟩ := by
          injection hd
        subst hdd
        refine ⟨a.arrivalTime, ?_, by
          show a.arrivalTime ≤ a.arrivalTime + a.transactionTime
          exact le_add_of_nonneg_right htxn⟩
        show ((s.tellers.set i _)[i]!).startBusy = _
        rw [getElem!_set_self s.tellers i _ hilen]
        rfl
      · have hne : d.tellerIndex ≠ i := hnodep d (hsub _ hd)
        obtain ⟨sb, hsb, hle⟩ := hInv.depBusy d (hsub _ hd)
        refine ⟨sb, ?_, hle⟩
        show ((s.tellers.set i _)[d.tellerIndex]!).startBusy = some sb
        rw [getElem!_set_ne s.tellers i d.tellerIndex _ (fun hc => hne hc.symm)]
        exact hsb
    · -- depNodup
      show ((heapPush (heapPop s.eventQueue) _).toList.filterMap Event.depIndex).Nodup
      rw [(hpushperm.filterMap Event.depIndex).nodup_iff]
      rw [filterMap_depIndex_departure]
      rw [List.nodup_cons]
      constructor
      · intro hmem
        rcases List.mem_filterMap.1 hmem with ⟨ev, hev, hevi⟩
        cases ev with
        | arrival _ => exact Option.noConfusion hevi
        | departure d' =>
          have : d'.tellerIndex = i := by
            simpa [Event.depIndex] using hevi
          exact hnodep d' (hsub _ hev) this
      · have hN : ((s.eventQueue.toList).filterMap Event.depIndex).Nodup := hInv.depNodup
        rw [← (hperm0.filterMap Event.depIndex).nodup_iff, filterMap_depIndex_arrival] at hN
        exact hN
    · -- busyDep
      intro i' hi' hbusy
      rw [List.length_set] at hi'
      rcases eq_or_ne i' i with rfl | hne
      · exact ⟨⟨a.arrivalTime + a.transactionTime, i'⟩, (hmem' _).2 (Or.inl rfl), rfl⟩
      · rw [getElem!_set_ne s.tellers i i' _ (fun hc => hne hc.symm)] at hbusy
        obtain ⟨d, hd, hdi⟩ := hInv.busyDep i' hi' hbusy
        refine ⟨d, (hmem' _).2 ?_, hdi⟩
        right
        have := hperm0.mem_iff.2 hd
        rcases List.mem_cons.1 this with hc | hc
        · exact Event.noConfusion hc
        · exact hc
    · -- lineBusy
      intro hne
      exact absurd hline hne
    · -- posTellers
      show 1 ≤ (s.tellers.set i _).length
      rw [List.length_set]
      exact hInv.posTellers
    · -- arrNonneg
      intro a' ha'
      rw [hmem'] at ha'
      rcases ha' with ha' | ha'
      · exact Event.noConfusion ha'
      · exact hInv.arrNonneg a' (hsub _ ha')
    · -- lineNonneg
      intro c hc
      exact hInv.lineNonneg c hc
    · -- elapsedNonneg
      intro t ht
      rcases List.mem_or_eq_of_mem_set ht with ht | rfl
      · exact hInv.elapsedNonneg t ht
      · show (0 : Int) ≤ ((s.tellers[i]!).startWork a.arrivalTime).elapsedTimeBusy
        exact hInv.elapsedNonneg (s.tellers[i]!) (getElem!_mem_list s.tellers i hilen)
  · -- the measure decreases by exactly one
    have hc1 : ∀ p : Event → Bool, (s.eventQueue.toList).countP p =
        ((heapPop s.eventQueue).toList).countP p +
          (if p (Event.arrival a) = true then 1 else 0) := by
      intro p
      rw [← hperm0.countP_eq p, List.countP_cons]
    have hc2 : ∀ p : Event → Bool,
        ((heapPush (heapPop s.eventQueue)
          (Event.departure ⟨a.arrivalTime + a.transactionTime, i⟩)).toList).countP p =
        ((heapPop s.eventQueue).toList).countP p +
          (if p (Event.departure ⟨a.arrivalTime + a.transactionTime, i⟩) = true
            then 1 else 0) := by
      intro p
      rw [hpushperm.countP_eq p, List.countP_cons]
    show 2 * ((heapPush (heapPop s.eventQueue) _).toList.countP Event.isArrival) +
        (heapPush (heapPop s.eventQueue) _).toList.countP (fun e => !e.isArrival) +
        s.bankLine.length + 1 = s.simMeasure
    unfold BankSim3000.simMeasure
    rw [hc2 Event.isArrival, hc2 (fun e => !e.isArrival), hc1 Event.isArrival,
      hc1 (fun e => !e.isArrival)]
    simp [Event.isArrival]
    omega
  · -- the work ledger is unchanged
    have hmain : ∀ s' : BankSim3000,
        s'.tellers = s.tellers.set i ((s.tellers[i]!).startWork a.arrivalTime) →
        s'.bankLine = s.bankLine →
        s'.queueEvents = (heapPush (heapPop s.eventQueue)
          (Event.departure ⟨a.arrivalTime + a.transactionTime, i⟩)).toList →
        workLedger s' = workLedger s := by
      intro s' htl hbl hqe
      unfold workLedger
      rw [hqe, htl, hbl]
      have hcong : ∀ x ∈ (heapPop s.eventQueue).toList, eventWork s' x = eventWork s x := by
        intro x hx
        refine eventWork_set_ne s s' i _ htl x ?_
        intro d' hxd'
        subst hxd'
        exact hnodep d' (hsub _ hx)
      have hq1 : ((heapPush (heapPop s.eventQueue)
          (Event.departure ⟨a.arrivalTime + a.transactionTime, i⟩)).toList.map
            (eventWork s')).sum =
          eventWork s' (Event.departure ⟨a.arrivalTime + a.transactionTime, i⟩) +
            (((heapPop s.eventQueue).toList).map (eventWork s')).sum := by
        rw [(hpushperm.map (eventWork s')).sum_eq, List.map_cons, List.sum_cons]
      have hq2 : eventWork s' (Event.departure ⟨a.arrivalTime + a.transactionTime, i⟩) =
          a.transactionTime := by
        show (⟨a.arrivalTime + a.transactionTime, i⟩ : DepartureEvent).departureTime -
          ((s'.tellers[(⟨a.arrivalTime + a.transactionTime, i⟩ :
            DepartureEvent).tellerIndex]!).startBusy.getD 0) = a.transactionTime
        rw [htl]
        rw [show (⟨a.arrivalTime + a.transactionTime, i⟩ : DepartureEvent).tellerIndex = i
          from rfl]
        rw [getElem!_set_self s.tellers i _ hilen]
        show a.arrivalTime + a.transactionTime - ((some a.arrivalTime).getD 0) =
          a.transactionTime
        simp
      have hq3 : (((heapPop s.eventQueue).toList).map (eventWork s')).sum =
          (((heapPop s.eventQueue).toList).map (eventWork s)).sum := by
        rw [List.map_congr_left hcong]
      have hq4 : (s.queueEvents.map (eventWork s)).sum =
          a.transactionTime + (((heapPop s.eventQueue).toList).map (eventWork s)).sum := by
        rw [show s.queueEvents = s.eventQueue.toList from rfl,
          ← (hperm0.map (eventWork s)).sum_eq, List.map_cons, List.sum_cons]
        rfl
      have hesum : ((s.tellers.set i ((s.tellers[i]!).startWork a.arrivalTime)).map
          Teller.elapsedTimeBusy).sum = (s.tellers.map Teller.elapsedTimeBusy).sum := by
        have hss := sum_map_set Teller.elapsedTimeBusy s.tellers i
          ((s.tellers[i]!).startWork a.arrivalTime) hilen
        have heq : Teller.elapsedTimeBusy ((s.tellers[i]!).startWork a.arrivalTime) =
            Teller.elapsedTimeBusy (s.tellers[i]!) := rfl
        linarith [hss, heq]
      rw [hq1, hq2, hq3, hq4, hesum]
      try ring
    exact hmain _ rfl rfl rfl

/-- One loop iteration, case: the popped event is an arrival and no teller
is available.  The customer joins the bank line. -/
theorem runStep_spec_arrival_none (s : BankSim3000) (hq : s.eventQueue.size ≠ 0)
    (hInv : SimInv s) (a : ArrivalEvent) (hE : s.eventQueue[0]! = Event.arrival a)
    (hsearch : BankSim3000.searchAvailableTellersAux s.tellers = none) :
    ∃ s', s.runStep = some s' ∧ SimInv s' ∧
      s'.simMeasure + 1 = s.simMeasure ∧
      workLedger s' = workLedger s ∧
      s'.simulationInput = s.simulationInput ∧
      s'.tellers.length = s.tellers.length := by
  have h0 : (0 : Nat) < s.eventQueue.size := Nat.pos_of_ne_zero hq
  have hperm0 := heapPop_perm s.eventQueue hq
  rw [hE] at hperm0
  have hmem_top : Event.arrival a ∈ s.queueEvents := by
    rw [← hE]
    exact getElem!_mem_toList h0
  have hsub : ∀ x, x ∈ (heapPop s.eventQueue).toList → x ∈ s.queueEvents := by
    intro x hx
    exact hperm0.mem_iff.1 (List.mem_cons_of_mem _ hx)
  have hall : ∀ t ∈ s.tellers, t.isAvailable = false :=
    searchAvailableTellersAux_none hsearch
  refine ⟨{ s with
      eventQueue := heapPop s.eventQueue
      bankLine := s.bankLine ++ [Customer.mk a] }, ?_, ?_, ?_, ?_, rfl, rfl⟩
  · unfold BankSim3000.runStep
    rw [getElem?_pos s.eventQueue 0 h0, ← getElem!_pos s.eventQueue 0 h0, hE]
    show BankSim3000.processEvent _ _ _ = _
    unfold BankSim3000.processEvent BankSim3000.processArrival
      BankSim3000.searchAvailableTellers
    rw [show ({ s with eventQueue := heapPop s.eventQueue } : BankSim3000).tellers
      = s.tellers from rfl, hsearch]
  · refine ⟨?_, ?_, ?_, ?_, ?_, ?_, ?_, ?_, ?_⟩
    · intro d hd
      exact hInv.depBound d (hsub _ hd)
    · intro d hd
      exact hInv.depBusy d (hsub _ hd)
    · show (((heapPop s.eventQueue).toList).filterMap Event.depIndex).Nodup
      have hN : ((s.eventQueue.toList).filterMap Event.depIndex).Nodup := hInv.depNodup
      rw [← (hperm0.filterMap Event.depIndex).nodup_iff, filterMap_depIndex_arrival] at hN
      exact hN
    · intro i' hi' hbusy
      obtain ⟨d, hd, hdi⟩ := hInv.busyDep i' hi' hbusy
      refine ⟨d, ?_, hdi⟩
      have hmem := hperm0.mem_iff.2 hd
      rcases List.mem_cons.1 hmem with hc | hc
      · exact Event.noConfusion hc
      · exact hc
    · intro _ i' hi'
      have hmemT : s.tellers[i']! ∈ s.tellers := getElem!_mem_list s.tellers i' hi'
      exact isAvailable_false_iff.1 (hall _ hmemT)
    · exact hInv.posTellers
    · intro a' ha'
      exact hInv.arrNonneg a' (hsub _ ha')
    · intro c hc
      show 0 ≤ c.arrivalEvent.transactionTime
      rcases List.mem_append.1 hc with hc | hc
      · exact hInv.lineNonneg c hc
      · have hca : c = Customer.mk a := by simpa using hc
        rw [hca]
        exact hInv.arrNonneg a hmem_top
    · exact hInv.elapsedNonneg
  · have hc1 : ∀ p : Event → Bool, (s.eventQueue.toList).countP p =
        ((heapPop s.eventQueue).toList).countP p +
          (if p (Event.arrival a) = true then 1 else 0) := by
      intro p
      rw [← hperm0.countP_eq p, List.countP_cons]
    show 2 * ((heapPop s.eventQueue).toList.countP Event.isArrival) +
        (heapPop s.eventQueue).toList.countP (fun e => !e.isArrival) +
        (s.bankLine ++ [Customer.mk a]).length + 1 = s.simMeasure
    unfold BankSim3000.simMeasure
    rw [hc1 Event.isArrival, hc1 (fun e => !e.isArrival), List.length_append]
    simp [Event.isArrival]
    omega
  · have hmain : ∀ s' : BankSim3000, s'.tellers = s.tellers →
        s'.bankLine = s.bankLine ++ [Customer.mk a] →
        s'.queueEvents = (heapPop s.eventQueue).toList →
        workLedger s' = workLedger s := by
      intro s' htl hbl hqe
      unfold workLedger
      rw [hqe, htl, hbl]
      rw [eventWork_eq_of_tellers s s' htl]
      have hq4 : (s.queueEvents.map (eventWork s)).sum =
          a.transactionTime + (((heapPop s.eventQueue).toList).map (eventWork s)).sum := by
        rw [show s.queueEvents = s.eventQueue.toList from rfl,
          ← (hperm0.map (eventWork s)).sum_eq, List.map_cons, List.sum_cons]
        rfl
      rw [hq4, List.map_append, List.sum_append]
      show _ + _ + (_ + ((Customer.mk a).arrivalEvent.transactionTime + 0)) = _
      show _ + _ + (_ + (a.transactionTime + 0)) = _
      ring
    exact hmain _ rfl rfl rfl

/-- One loop iteration, case: the popped event is a departure and the bank
line is empty.  The teller stops working. -/
theorem runStep_spec_departure_empty (s : BankSim3000) (hq : s.eventQueue.size ≠ 0)
    (hInv : SimInv s) (d : DepartureEvent) (hE : s.eventQueue[0]! = Event.departure d)
    (hline : s.bankLine = []) :
    ∃ s', s.runStep = some s' ∧ SimInv s' ∧
      s'.simMeasure + 1 = s.simMeasure ∧
      workLedger s' = workLedger s ∧
      s'.simulationInput = s.simulationInput ∧
      s'.tellers.length = s.tellers.length := by
  have h0 : (0 : Nat) < s.eventQueue.size := Nat.pos_of_ne_zero hq
  have hperm0 := heapPop_perm s.eventQueue hq
  rw [hE] at hperm0
  have hmem_top : Event.departure d ∈ s.queueEvents := by
    rw [← hE]
    exact getElem!_mem_toList h0
  have hsub : ∀ x, x ∈ (heapPop s.eventQueue).toList → x ∈ s.queueEvents := by
    intro x hx
    exact hperm0.mem_iff.1 (List.mem_cons_of_mem _ hx)
  have hidx : d.tellerIndex < s.tellers.length := hInv.depBound d hmem_top
  obtain ⟨sb, hsb, hsble⟩ := hInv.depBusy d hmem_top
  have huniq : ∀ d' : DepartureEvent, Event.departure d' ∈ (heapPop s.eventQueue).toList →
      d'.tellerIndex ≠ d.tellerIndex := by
    intro d' hd' heq
    have hN : ((s.eventQueue.toList).filterMap Event.depIndex).Nodup := hInv.depNodup
    rw [← (hperm0.filterMap Event.depIndex).nodup_iff, filterMap_depIndex_departure,
      List.nodup_cons] at hN
    exact hN.1 (heq ▸ depIndex_mem hd')
  have hstop : (s.tellers[d.tellerIndex]!).stopWork d.departureTime =
      some ⟨none, (s.tellers[d.tellerIndex]!).elapsedTimeBusy + (d.departureTime - sb)⟩ := by
    unfold Teller.stopWork
    rw [hsb]
    rfl
  refine ⟨{ s with
      eventQueue := heapPop s.eventQueue
      tellers := s.tellers.set d.tellerIndex
        ⟨none, (s.tellers[d.tellerIndex]!).elapsedTimeBusy + (d.departureTime - sb)⟩ },
    ?_, ?_, ?_, ?_, rfl, by
      show (s.tellers.set d.tellerIndex _).length = s.tellers.length
      rw [List.length_set]⟩
  · unfold BankSim3000.runStep
    rw [getElem?_pos s.eventQueue 0 h0, ← getElem!_pos s.eventQueue 0 h0, hE]
    show BankSim3000.processDeparture { s with eventQueue := heapPop s.eventQueue }
      (get_event_time (Event.departure d)) d = _
    unfold BankSim3000.processDeparture
    rw [show ({ s with eventQueue := heapPop s.eventQueue } : BankSim3000).tellers
      = s.tellers from rfl]
    rw [if_pos hidx]
    rw [show ({ s with eventQueue := heapPop s.eventQueue } : BankSim3000).bankLine
      = s.bankLine from rfl, hline]
    rw [show get_event_time (Event.departure d) = d.departureTime from rfl, hstop]
    rfl
  · refine ⟨?_, ?_, ?_, ?_, ?_, ?_, ?_, ?_, ?_⟩
    · intro d' hd'
      show d'.tellerIndex < (s.tellers.set d.tellerIndex _).length
      rw [List.length_set]
      exact hInv.depBound d' (hsub _ hd')
    · intro d' hd'
      obtain ⟨sb', hsb', hle'⟩ := hInv.depBusy d' (hsub _ hd')
      refine ⟨sb', ?_, hle'⟩
      show ((s.tellers.set d.tellerIndex _)[d'.tellerIndex]!).startBusy = some sb'
      rw [getElem!_set_ne s.tellers d.tellerIndex d'.tellerIndex _
        (fun hc => huniq d' hd' hc.symm)]
      exact hsb'
    · show (((heapPop s.eventQueue).toList).filterMap Event.depIndex).Nodup
      have hN : ((s.eventQueue.toList).filterMap Event.depIndex).Nodup := hInv.depNodup
      rw [← (hperm0.filterMap Event.depIndex).nodup_iff, filterMap_depIndex_departure,
        List.nodup_cons] at hN
      exact hN.2
    · intro i' hi' hbusy
      rw [List.length_set] at hi'
      rcases eq_or_ne i' d.tellerIndex with heq | hne
      · exfalso
        rw [heq, getElem!_set_self s.tellers d.tellerIndex _ hidx] at hbusy
        simp at hbusy
      · rw [getElem!_set_ne s.tellers d.tellerIndex i' _ (fun hc => hne hc.symm)] at hbusy
        obtain ⟨d', hd', hdi'⟩ := hInv.busyDep i' hi' hbusy
        have hmem := hperm0.mem_iff.2 hd'
        rcases List.mem_cons.1 hmem with hc | hc
        · exfalso
          have : d' = d := by
            injection hc
          rw [this] at hdi'
          exact hne hdi'.symm
        · exact ⟨d', hc, hdi'⟩
    · intro hne
      exact absurd hline hne
    · show 1 ≤ (s.tellers.set d.tellerIndex _).length
      rw [List.length_set]
      exact hInv.posTellers
    · intro a' ha'
      exact hInv.arrNonneg a' (hsub _ ha')
    · intro c hc
      exact hInv.lineNonneg c hc
    · intro t ht
      rcases List.mem_or_eq_of_mem_set ht with ht | rfl
      · exact hInv.elapsedNonneg t ht
      · show (0 : Int) ≤ (s.tellers[d.tellerIndex]!).elapsedTimeBusy +
          (d.departureTime - sb)
        have h1 : (0 : Int) ≤ (s.tellers[d.tellerIndex]!).elapsedTimeBusy :=
          hInv.elapsedNonneg _ (getElem!_mem_list s.tellers d.tellerIndex hidx)
        linarith [h1, hsble]
  · have hc1 : ∀ p : Event → Bool, (s.eventQueue.toList).countP p =
        ((heapPop s.eventQueue).toList).countP p +
          (if p (Event.departure d) = true then 1 else 0) := by
      intro p
      rw [← hperm0.countP_eq p, List.countP_cons]
    show 2 * ((heapPop s.eventQueue).toList.countP Event.isArrival) +
        (heapPop s.eventQueue).toList.countP (fun e => !e.isArrival) +
        s.bankLine.length + 1 = s.simMeasure
    unfold BankSim3000.simMeasure
    rw [hc1 Event.isArrival, hc1 (fun e => !e.isArrival)]
    simp [Event.isArrival]
    omega
  · have hmain : ∀ s' : BankSim3000,
        s'.tellers = s.tellers.set d.tellerIndex
          ⟨none, (s.tellers[d.tellerIndex]!).elapsedTimeBusy + (d.departureTime - sb)⟩ →
        s'.bankLine = s.bankLine →
        s'.queueEvents = (heapPop s.eventQueue).toList →
        workLedger s' = workLedger s := by
      intro s' htl hbl hqe
      unfold workLedger
      rw [hqe, htl, hbl]
      have hcong : ∀ x ∈ (heapPop s.eventQueue).toList, eventWork s' x = eventWork s x := by
        intro x hx
        refine eventWork_set_ne s s' d.tellerIndex _ htl x ?_
        intro d' hxd'
        subst hxd'
        exact huniq d' hx
      rw [List.map_congr_left hcong]
      have hq4 : (s.queueEvents.map (eventWork s)).sum =
          (d.departureTime - sb) + (((heapPop s.eventQueue).toList).map (eventWork s)).sum := by
        rw [show s.queueEvents = s.eventQueue.toList from rfl,
          ← (hperm0.map (eventWork s)).sum_eq, List.map_cons, List.sum_cons]
        congr 1
        show d.departureTime - ((s.tellers[d.tellerIndex]!).startBusy.getD 0) = _
        rw [hsb]
        rfl
      rw [hq4]
      have hesum : ((s.tellers.set d.tellerIndex
          ⟨none, (s.tellers[d.tellerIndex]!).elapsedTimeBusy + (d.departureTime - sb)⟩).map
            Teller.elapsedTimeBusy).sum =
          (s.tellers.map Teller.elapsedTimeBusy).sum + (d.departureTime - sb) := by
        have hss := sum_map_set Teller.elapsedTimeBusy s.tellers d.tellerIndex
          ⟨none, (s.tellers[d.tellerIndex]!).elapsedTimeBusy + (d.departureTime - sb)⟩ hidx
        have heq : Teller.elapsedTimeBusy
            (⟨none, (s.tellers[d.tellerIndex]!).elapsedTimeBusy + (d.departureTime - sb)⟩ :
              Teller) =
            Teller.elapsedTimeBusy (s.tellers[d.tellerIndex]!) + (d.departureTime - sb) :=
          rfl
        linarith [hss, heq]
      rw [hesum]
      ring
    exact hmain _ rfl rfl rfl

/-- One loop iteration, case: the popped event is a departure and a
customer is waiting.  The teller stops and immediately restarts on the
front customer, whose departure is scheduled. -/
theorem runStep_spec_departure_cons (s : BankSim3000) (hq : s.eventQueue.size ≠ 0)
    (hInv : SimInv s) (d : DepartureEvent) (hE : s.eventQueue[0]! = Event.departure d)
    (c : Customer) (rest : List Customer) (hlineEq : s.bankLine = c :: rest) :
    ∃ s', s.runStep = some s' ∧ SimInv s' ∧
      s'.simMeasure + 1 = s.simMeasure ∧
      workLedger s' = workLedger s ∧
      s'.simulationInput = s.simulationInput ∧
      s'.tellers.length = s.tellers.length := by
  have h0 : (0 : Nat) < s.eventQueue.size := Nat.pos_of_ne_zero hq
  have hperm0 := heapPop_perm s.eventQueue hq
  rw [hE] at hperm0
  have hmem_top : Event.departure d ∈ s.queueEvents := by
    rw [← hE]
    exact getElem!_mem_toList h0
  have hsub : ∀ x, x ∈ (heapPop s.eventQueue).toList → x ∈ s.queueEvents := by
    intro x hx
    exact hperm0.mem_iff.1 (List.mem_cons_of_mem _ hx)
  have hidx : d.tellerIndex < s.tellers.length := hInv.depBound d hmem_top
  obtain ⟨sb, hsb, hsble⟩ := hInv.depBusy d hmem_top
  have huniq : ∀ d' : DepartureEvent, Event.departure d' ∈ (heapPop s.eventQueue).toList →
      d'.tellerIndex ≠ d.tellerIndex := by
    intro d' hd' heq
    have hN : ((s.eventQueue.toList).filterMap Event.depIndex).Nodup := hInv.depNodup
    rw [← (hperm0.filterMap Event.depIndex).nodup_iff, filterMap_depIndex_departure,
      List.nodup_cons] at hN
    exact hN.1 (heq ▸ depIndex_mem hd')
  have hcnn : 0 ≤ c.arrivalEvent.transactionTime := by
    refine hInv.lineNonneg c ?_
    rw [hlineEq]
    exact List.mem_cons_self _ _
  have hstop : (s.tellers[d.tellerIndex]!).stopWork d.departureTime =
      some ⟨none, (s.tellers[d.tellerIndex]!).elapsedTimeBusy + (d.departureTime - sb)⟩ := by
    unfold Teller.stopWork
    rw [hsb]
    rfl
  have hpushperm := heapPush_perm (heapPop s.eventQueue)
    (Event.departure ⟨d.departureTime + c.arrivalEvent.transactionTime, d.tellerIndex⟩)
  refine ⟨{ s with
      eventQueue := heapPush (heapPop s.eventQueue)
        (Event.departure ⟨d.departureTime + c.arrivalEvent.transactionTime, d.tellerIndex⟩)
      bankLine := rest
      tellers := s.tellers.set d.tellerIndex
        ⟨some d.departureTime,
          (s.tellers[d.tellerIndex]!).elapsedTimeBusy + (d.departureTime - sb)⟩ },
    ?_, ?_, ?_, ?_, rfl, by
      show (s.tellers.set d.tellerIndex _).length = s.tellers.length
      rw [List.length_set]⟩
  · unfold BankSim3000.runStep
    rw [getElem?_pos s.eventQueue 0 h0, ← getElem!_pos s.eventQueue 0 h0, hE]
    show BankSim3000.processDeparture { s with eventQueue := heapPop s.eventQueue }
      (get_event_time (Event.departure d)) d = _
    unfold BankSim3000.processDeparture
    rw [show ({ s with eventQueue := heapPop s.eventQueue } : BankSim3000).tellers
      = s.tellers from rfl]
    rw [if_pos hidx]
    rw [show ({ s with eventQueue := heapPop s.eventQueue } : BankSim3000).bankLine
      = s.bankLine from rfl, hlineEq]
    rw [show get_event_time (Event.departure d) = d.departureTime from rfl, hstop]
    rfl
  · have hmem' : ∀ x, x ∈ (heapPush (heapPop s.eventQueue)
        (Event.departure
          ⟨d.departureTime + c.arrivalEvent.transactionTime, d.tellerIndex⟩)).toList ↔
        (x = Event.departure
          ⟨d.departureTime + c.arrivalEvent.transactionTime, d.tellerIndex⟩ ∨
          x ∈ (heapPop s.eventQueue).toList) := by
      intro x
      rw [hpushperm.mem_iff, List.mem_cons]
    refine ⟨?_, ?_, ?_, ?_, ?_, ?_, ?_, ?_, ?_⟩
    · intro d' hd'
      have hd2 : Event.departure d' ∈ (heapPush (heapPop s.eventQueue)
        (Event.departure
          ⟨d.departureTime + c.arrivalEvent.transactionTime, d.tellerIndex⟩)).toList := hd'
      rw [hmem'] at hd2
      show d'.tellerIndex < (s.tellers.set d.tellerIndex _).length
      rw [List.length_set]
      rcases hd2 with hd' | hd'
      · have hdd : d' = ⟨d.departureTime + c.arrivalEvent.transactionTime, d.tellerIndex⟩ := by
          injection hd'
        rw [hdd]
        exact hidx
      · exact hInv.depBound d' (hsub _ hd')
    · intro d' hd'
      have hd2 : Event.departure d' ∈ (heapPush (heapPop s.eventQueue)
        (Event.departure
          ⟨d.departureTime + c.arrivalEvent.transactionTime, d.tellerIndex⟩)).toList := hd'
      rw [hmem'] at hd2
      rcases hd2 with hd' | hd'
      · have hdd : d' = ⟨d.departureTime + c.arrivalEvent.transactionTime, d.tellerIndex⟩ := by
          injection hd'
        subst hdd
        refine ⟨d.departureTime, ?_, by
          show d.departureTime ≤ d.departureTime + c.arrivalEvent.transactionTime
          exact le_add_of_nonneg_right hcnn⟩
        show ((s.tellers.set d.tellerIndex _)[d.tellerIndex]!).startBusy = _
        rw [getElem!_set_self s.tellers d.tellerIndex _ hidx]
      · have hne : d'.tellerIndex ≠ d.tellerIndex := huniq d' hd'
        obtain ⟨sb', hsb', hle'⟩ := hInv.depBusy d' (hsub _ hd')
        refine ⟨sb', ?_, hle'⟩
        show ((s.tellers.set d.tellerIndex _)[d'.tellerIndex]!).startBusy = some sb'
        rw [getElem!_set_ne s.tellers d.tellerIndex d'.tellerIndex _
          (fun hc2 => hne hc2.symm)]
        exact hsb'
    · show ((heapPush (heapPop s.eventQueue) _).toList.filterMap Event.depIndex).Nodup
      rw [(hpushperm.filterMap Event.depIndex).nodup_iff, filterMap_depIndex_departure,
        List.nodup_cons]
      constructor
      · intro hmem
        rcases List.mem_filterMap.1 hmem with ⟨ev, hev, hevi⟩
        cases ev with
        | arrival _ => exact Option.noConfusion hevi
        | departure d' =>
          have hdi : d'.tellerIndex = d.tellerIndex := by
            simpa [Event.depIndex] using hevi
          exact huniq d' hev hdi
      · have hN : ((s.eventQueue.toList).filterMap Event.depIndex).Nodup := hInv.depNodup
        rw [← (hperm0.filterMap Event.depIndex).nodup_iff, filterMap_depIndex_departure,
          List.nodup_cons] at hN
        exact hN.2
    · intro i' hi' hbusy
      rw [List.length_set] at hi'
      rcases eq_or_ne i' d.tellerIndex with heq | hne
      · exact ⟨⟨d.departureTime + c.arrivalEvent.transactionTime, d.tellerIndex⟩,
          (hmem' _).2 (Or.inl rfl), heq.symm⟩
      · rw [getElem!_set_ne s.tellers d.tellerIndex i' _ (fun hc2 => hne hc2.symm)] at hbusy
        obtain ⟨d', hd', hdi'⟩ := hInv.busyDep i' hi' hbusy
        have hmem := hperm0.mem_iff.2 hd'
        rcases List.mem_cons.1 hmem with hc2 | hc2
        · exfalso
          have hdd : d' = d := by
            injection hc2
          rw [hdd] at hdi'
          exact hne hdi'.symm
        · exact ⟨d', (hmem' _).2 (Or.inr hc2), hdi'⟩
    · intro _ i' hi'
      rw [List.length_set] at hi'
      rcases eq_or_ne i' d.tellerIndex with heq | hne
      · rw [heq, getElem!_set_self s.tellers d.tellerIndex _ hidx]
        rfl
      · rw [getElem!_set_ne s.tellers d.tellerIndex i' _ (fun hc2 => hne hc2.symm)]
        refine hInv.lineBusy ?_ i' hi'
        rw [hlineEq]
        simp
    · show 1 ≤ (s.tellers.set d.tellerIndex _).length
      rw [List.length_set]
      exact hInv.posTellers
    · intro a' ha'
      have ha2 : Event.arrival a' ∈ (heapPush (heapPop s.eventQueue)
        (Event.departure
          ⟨d.departureTime + c.arrivalEvent.transactionTime, d.tellerIndex⟩)).toList := ha'
      rw [hmem'] at ha2
      rcases ha2 with ha2 | ha2
      · exact Event.noConfusion ha2
      · exact hInv.arrNonneg a' (hsub _ ha2)
    · intro c' hc'
      refine hInv.lineNonneg c' ?_
      rw [hlineEq]
      exact List.mem_cons_of_mem _ hc'
    · intro t ht
      rcases List.mem_or_eq_of_mem_set ht with ht | rfl
      · exact hInv.elapsedNonneg t ht
      · show (0 : Int) ≤ (s.tellers[d.tellerIndex]!).elapsedTimeBusy +
          (d.departureTime - sb)
        have h1 : (0 : Int) ≤ (s.tellers[d.tellerIndex]!).elapsedTimeBusy :=
          hInv.elapsedNonneg _ (getElem!_mem_list s.tellers d.tellerIndex hidx)
        linarith [h1, hsble]
  · have hc1 : ∀ p : Event → Bool, (s.eventQueue.toList).countP p =
        ((heapPop s.eventQueue).toList).countP p +
          (if p (Event.departure d) = true then 1 else 0) := by
      intro p
      rw [← hperm0.countP_eq p, List.countP_cons]
    have hc2 : ∀ p : Event → Bool,
        ((heapPush (heapPop s.eventQueue)
          (Event.departure
            ⟨d.departureTime + c.arrivalEvent.transactionTime, d.tellerIndex⟩)).toList).countP
              p =
        ((heapPop s.eventQueue).toList).countP p +
          (if p (Event.departure
            ⟨d.departureTime + c.arrivalEvent.transactionTime, d.tellerIndex⟩) = true
            then 1 else 0) := by
      intro p
      rw [hpushperm.countP_eq p, List.countP_cons]
    show 2 * ((heapPush (heapPop s.eventQueue) _).toList.countP Event.isArrival) +
        (heapPush (heapPop s.eventQueue) _).toList.countP (fun e => !e.isArrival) +
        rest.length + 1 = s.simMeasure
    unfold BankSim3000.simMeasure
    rw [hc2 Event.isArrival, hc2 (fun e => !e.isArrival), hc1 Event.isArrival,
      hc1 (fun e => !e.isArrival), hlineEq]
    simp [Event.isArrival]
    omega
  · have hmain : ∀ s' : BankSim3000,
        s'.tellers = s.tellers.set d.tellerIndex
          ⟨some d.departureTime,
            (s.tellers[d.tellerIndex]!).elapsedTimeBusy + (d.departureTime - sb)⟩ →
        s'.bankLine = rest →
        s'.queueEvents = (heapPush (heapPop s.eventQueue)
          (Event.departure
            ⟨d.departureTime + c.arrivalEvent.transactionTime, d.tellerIndex⟩)).toList →
        workLedger s' = workLedger s := by
      intro s' htl hbl hqe
      unfold workLedger
      rw [hqe, htl, hbl]
      have hcong : ∀ x ∈ (heapPop s.eventQueue).toList, eventWork s' x = eventWork s x := by
        intro x hx
        refine eventWork_set_ne s s' d.tellerIndex _ htl x ?_
        intro d' hxd'
        subst hxd'
        exact huniq d' hx
      have hq1 : ((heapPush (heapPop s.eventQueue)
          (Event.departure
            ⟨d.departureTime + c.arrivalEvent.transactionTime, d.tellerIndex⟩)).toList.map
              (eventWork s')).sum =
          eventWork s' (Event.departure
            ⟨d.departureTime + c.arrivalEvent.transactionTime, d.tellerIndex⟩) +
            (((heapPop s.eventQueue).toList).map (eventWork s')).sum := by
        rw [(hpushperm.map (eventWork s')).sum_eq, List.map_cons, List.sum_cons]
      have hq2 : eventWork s' (Event.departure
          ⟨d.departureTime + c.arrivalEvent.transactionTime, d.tellerIndex⟩) =
          c.arrivalEvent.transactionTime := by
        show (⟨d.departureTime + c.arrivalEvent.transactionTime, d.tellerIndex⟩ :
            DepartureEvent).departureTime -
          ((s'.tellers[(⟨d.departureTime + c.arrivalEvent.transactionTime, d.tellerIndex⟩ :
            DepartureEvent).tellerIndex]!).startBusy.getD 0) = c.arrivalEvent.transactionTime
        rw [htl]
        rw [show (⟨d.departureTime + c.arrivalEvent.transactionTime, d.tellerIndex⟩ :
          DepartureEvent).tellerIndex = d.tellerIndex from rfl]
        rw [getElem!_set_self s.tellers d.tellerIndex _ hidx]
        show d.departureTime + c.arrivalEvent.transactionTime -
          ((some d.departureTime).getD 0) = c.arrivalEvent.transactionTime
        simp
      have hq3 : (((heapPop s.eventQueue).toList).map (eventWork s')).sum =
          (((heapPop s.eventQueue).toList).map (eventWork s)).sum := by
        rw [List.map_congr_left hcong]
      have hq4 : (s.queueEvents.map (eventWork s)).sum =
          (d.departureTime - sb) +
            (((heapPop s.eventQueue).toList).map (eventWork s)).sum := by
        rw [show s.queueEvents = s.eventQueue.toList from rfl,
          ← (hperm0.map (eventWork s)).sum_eq, List.map_cons, List.sum_cons]
        congr 1
        show d.departureTime - ((s.tellers[d.tellerIndex]!).startBusy.getD 0) = _
        rw [hsb]
        rfl
      have hesum : ((s.tellers.set d.tellerIndex
          ⟨some d.departureTime,
            (s.tellers[d.tellerIndex]!).elapsedTimeBusy + (d.departureTime - sb)⟩).map
            Teller.elapsedTimeBusy).sum =
          (s.tellers.map Teller.elapsedTimeBusy).sum + (d.departureTime - sb) := by
        have hss := sum_map_set Teller.elapsedTimeBusy s.tellers d.tellerIndex
          ⟨some d.departureTime,
            (s.tellers[d.tellerIndex]!).elapsedTimeBusy + (d.departureTime - sb)⟩ hidx
        have heq : Teller.elapsedTimeBusy
            (⟨some d.departureTime,
              (s.tellers[d.tellerIndex]!).elapsedTimeBusy + (d.departureTime - sb)⟩ :
                Teller) =
            Teller.elapsedTimeBusy (s.tellers[d.tellerIndex]!) + (d.departureTime - sb) :=
          rfl
        linarith [hss, heq]
      rw [hq1, hq2, hq3, hq4, hesum, hlineEq, List.map_cons, List.sum_cons]
      ring
    exact hmain _ rfl rfl rfl

/-- One loop iteration from any invariant state succeeds, preserves the
invariant and the work ledger, and decreases the measure by exactly one. -/
theorem runStep_spec (s : BankSim3000) (hq : s.eventQueue.size ≠ 0) (hInv : SimInv s) :
    ∃ s', s.runStep = some s' ∧ SimInv s' ∧
      s'.simMeasure + 1 = s.simMeasure ∧
      workLedger s' = workLedger s ∧
      s'.simulationInput = s.simulationInput ∧
      s'.tellers.length = s.tellers.length := by
  cases hE : s.eventQueue[0]! with
  | arrival a =>
    cases hsearch : BankSim3000.searchAvailableTellersAux s.tellers with
    | some i => exact runStep_spec_arrival_some s hq hInv a hE i hsearch
    | none => exact runStep_spec_arrival_none s hq hInv a hE hsearch
  | departure d =>
    cases hline : s.bankLine with
    | nil => exact runStep_spec_departure_empty s hq hInv d hE hline
    | cons c rest => exact runStep_spec_departure_cons s hq hInv d hE c rest hline

/-- With an empty event queue every teller is idle, so (under the
invariant) the bank line must be empty. -/
theorem line_empty_of_queue_empty (s : BankSim3000) (hInv : SimInv s)
    (hq : s.eventQueue.size = 0) : s.bankLine = [] := by
  by_contra hne
  have hpos : 0 < s.tellers.length := hInv.posTellers
  have hbusy := hInv.lineBusy hne 0 hpos
  obtain ⟨d, hd, _⟩ := hInv.busyDep 0 hpos hbusy
  have hnil : s.eventQueue.toList = [] := by
    have hlen := Array.length_toList (l := s.eventQueue)
    exact List.eq_nil_of_length_eq_zero (by omega)
  rw [show s.queueEvents = s.eventQueue.toList from rfl, hnil] at hd
  exact absurd hd (List.not_mem_nil _)

theorem countP_isArrival_total :
    ∀ L : List Event,
      L.countP Event.isArrival + L.countP (fun e => !e.isArrival) = L.length
  | [] => by simp
  | e :: L => by
    have ih := countP_isArrival_total L
    rw [List.countP_cons, List.countP_cons, List.length_cons]
    cases he : e.isArrival <;> simp [he] <;> omega

theorem simMeasure_zero (s : BankSim3000) (hq : s.eventQueue.size = 0)
    (hl : s.bankLine = []) : s.simMeasure = 0 := by
  unfold BankSim3000.simMeasure
  have hnil : s.eventQueue.toList = [] := by
    have hlen := Array.length_toList (l := s.eventQueue)
    exact List.eq_nil_of_length_eq_zero (by omega)
  rw [hnil, hl]
  simp

theorem queue_empty_of_simMeasure_zero (s : BankSim3000) (h : s.simMeasure = 0) :
    s.eventQueue.size = 0 ∧ s.bankLine = [] := by
  unfold BankSim3000.simMeasure at h
  have htot := countP_isArrival_total s.eventQueue.toList
  have hlen := Array.length_toList (l := s.eventQueue)
  constructor
  · omega
  · exact List.eq_nil_of_length_eq_zero (by omega)

/-- The event loop: with fuel at least the measure, it runs to completion,
preserving the invariant and the work ledger; the number of processed
events equals the initial measure, and the queue and line end empty. -/
theorem runSimAux_spec : ∀ (fuel : Nat) (s : BankSim3000), SimInv s →
    s.simMeasure ≤ fuel →
    ∃ s1 n ts, BankSim3000.runSimAux fuel s = some (s1, n, ts) ∧ SimInv s1 ∧
      s1.eventQueue.size = 0 ∧ s1.bankLine = [] ∧ n = s.simMeasure ∧
      workLedger s1 = workLedger s ∧ s1.simulationInput = s.simulationInput ∧
      s1.tellers.length = s.tellers.length
  | 0, s, hInv, hfuel => by
    have hm0 : s.simMeasure = 0 := by omega
    obtain ⟨hq, hl⟩ := queue_empty_of_simMeasure_zero s hm0
    refine ⟨s, 0, [], ?_, hInv, hq, hl, hm0.symm, rfl, rfl, rfl⟩
    unfold BankSim3000.runSimAux
    rw [if_pos hq]
  | fuel + 1, s, hInv, hfuel => by
    by_cases hq : s.eventQueue.size = 0
    · have hl := line_empty_of_queue_empty s hInv hq
      have hm0 := simMeasure_zero s hq hl
      refine ⟨s, 0, [], ?_, hInv, hq, hl, hm0.symm, rfl, rfl, rfl⟩
      unfold BankSim3000.runSimAux
      rw [if_pos hq]
    · obtain ⟨s', hstep, hInv', hmeas, hled, hinput, hlen⟩ := runStep_spec s hq hInv
      have h0 : (0 : Nat) < s.eventQueue.size := Nat.pos_of_ne_zero hq
      obtain ⟨s1, n, ts, hrun, hInv1, hq1, hl1, hn, hled1, hinput1, hlen1⟩ :=
        runSimAux_spec fuel s' hInv' (by omega)
      refine ⟨s1, n + 1, get_event_time (s.eventQueue[0]!) :: ts, ?_, hInv1, hq1, hl1,
        by omega, by rw [hled1, hled], by rw [hinput1, hinput], by rw [hlen1, hlen]⟩
      unfold BankSim3000.runSimAux
      rw [if_neg hq]
      rw [getElem?_pos s.eventQueue 0 h0, ← getElem!_pos s.eventQueue 0 h0, hstep]
      show (BankSim3000.runSimAux fuel s').map _ = _
      rw [hrun]
      rfl

/-! ## The immutable input trace and the set-up state -/

theorem processArrival_input (s : BankSim3000) (t : Time) (a : ArrivalEvent) :
    (s.processArrival t a).simulationInput = s.simulationInput := by
  unfold BankSim3000.processArrival
  split <;> rfl

theorem processDeparture_input (s : BankSim3000) (t : Time) (d : DepartureEvent)
    (s' : BankSim3000) (h : s.processDeparture t d = some s') :
    s'.simulationInput = s.simulationInput := by
  unfold BankSim3000.processDeparture at h
  split at h
  · split at h
    · rcases Option.map_eq_some'.1 h with ⟨tel, _, heq⟩
      rw [← heq]
    · rcases Option.map_eq_some'.1 h with ⟨tel, _, heq⟩
      rw [← heq]
  · exact Option.noConfusion h

/-- A loop iteration never touches the stored input trace. -/
theorem runStep_input (s s' : BankSim3000) (h : s.runStep = some s') :
    s'.simulationInput = s.simulationInput := by
  unfold BankSim3000.runStep at h
  cases htop : s.eventQueue[0]? with
  | none =>
    rw [htop] at h
    exact Option.noConfusion h
  | some e =>
    rw [htop] at h
    cases e with
    | arrival a =>
      have h2 : some (BankSim3000.processArrival
          { s with eventQueue := heapPop s.eventQueue }
          (get_event_time (Event.arrival a)) a) = some s' := h
      injection h2 with h2
      rw [← h2, processArrival_input]
    | departure d =>
      have h2 : BankSim3000.processDeparture { s with eventQueue := heapPop s.eventQueue }
          (get_event_time (Event.departure d)) d = some s' := h
      exact processDeparture_input { s with eventQueue := heapPop s.eventQueue } _ _ _ h2

theorem runSimAux_input : ∀ (fuel : Nat) (s : BankSim3000)
    (r : BankSim3000 × Nat × List Time), BankSim3000.runSimAux fuel s = some r →
    r.1.simulationInput = s.simulationInput
  | 0, s, r, h => by
    unfold BankSim3000.runSimAux at h
    split at h
    · injection h with h
      rw [← h]
    · exact Option.noConfusion h
  | fuel + 1, s, r, h => by
    unfold BankSim3000.runSimAux at h
    split at h
    · injection h with h
      rw [← h]
    · split at h
      · rename_i e s' htop hstep
        rcases Option.map_eq_some'.1 h with ⟨r', hr', heq⟩
        have ih := runSimAux_input fuel s' r' hr'
        rw [← heq]
        show r'.1.simulationInput = s.simulationInput
        rw [ih]
        exact runStep_input s s' hstep
      · exact Option.noConfusion h

/-- `runSimulation` never touches the stored input trace. -/
theorem runSimulation_input (s s' : BankSim3000) (h : s.runSimulation = some s') :
    s'.simulationInput = s.simulationInput := by
  unfold BankSim3000.runSimulation at h
  rcases Option.map_eq_some'.1 h with ⟨r, hr, heq⟩
  rw [← heq]
  exact runSimAux_input _ s r hr

/-- Characterisation of a successful `setupSimulation`: the teller count is
in range and the resulting state is fully determined by the stored input
trace and the teller count. -/
theorem setupSimulation_ok_iff (s : BankSim3000) (n : Nat) (s0 : BankSim3000) :
    s.setupSimulation n = Except.ok s0 ↔
      (MIN_TELLERS ≤ n ∧ n ≤ MAX_TELLERS ∧
        s0 = { simulationInput := s.simulationInput
               eventQueue := s.simulationInput.foldl
                 (fun q a => heapPush q (Event.arrival a)) #[]
               bankLine := []
               tellers := List.replicate n Teller.init }) := by
  unfold BankSim3000.setupSimulation
  split
  · rename_i h1
    constructor
    · intro h
      exact Except.noConfusion h
    · intro ⟨hmin, _, _⟩
      omega
  · split
    · rename_i h1 h2
      constructor
      · intro h
        exact Except.noConfusion h
      · intro ⟨_, hmax, _⟩
        omega
    · rename_i h1 h2
      constructor
      · intro h
        injection h with h
        refine ⟨by omega, by omega, ?_⟩
        rw [← h]
        rfl
      · intro ⟨_, _, hs0⟩
        rw [hs0]
        rfl

/-- `setupSimulation` rejects out-of-range teller counts. -/
theorem setupSimulation_invalid (s : BankSim3000) (n : Nat)
    (h : n < MIN_TELLERS ∨ n > MAX_TELLERS) :
    ∃ msg, s.setupSimulation n = Except.error msg := by
  unfold BankSim3000.setupSimulation
  rcases h with h | h
  · rw [if_pos h]
    exact ⟨_, rfl⟩
  · have hmin : ¬ (n < MIN_TELLERS) := by
      unfold MIN_TELLERS
      unfold MAX_TELLERS at h
      omega
    rw [if_neg hmin, if_pos h]
    exact ⟨_, rfl⟩

/-- `setupSimulation` depends only on the stored input trace. -/
theorem setupSimulation_input_congr (s s' : BankSim3000) (n : Nat)
    (h : s.simulationInput = s'.simulationInput) :
    s.setupSimulation n = s'.setupSimulation n := by
  unfold BankSim3000.setupSimulation
  split
  · rfl
  · split
    · rfl
    · show Except.ok _ = Except.ok _
      rw [show (((s.setupEventQueue).resetTellers n).clearBankLine : BankSim3000) =
        { simulationInput := s.simulationInput
          eventQueue := s.simulationInput.foldl
            (fun q a => heapPush q (Event.arrival a)) #[]
          bankLine := []
          tellers := List.replicate n Teller.init } from rfl]
      rw [show (((s'.setupEventQueue).resetTellers n).clearBankLine : BankSim3000) =
        { simulationInput := s'.simulationInput
          eventQueue := s'.simulationInput.foldl
            (fun q a => heapPush q (Event.arrival a)) #[]
          bankLine := []
          tellers := List.replicate n Teller.init } from rfl]
      rw [h]

/-- Seeding the queue pushes exactly the arrivals of the trace. -/
theorem buildQueue_perm_aux :
    ∀ (input : List ArrivalEvent) (q0 : Array Event),
      ((input.foldl (fun q a => heapPush q (Event.arrival a)) q0).toList).Perm
        (q0.toList ++ input.map Event.arrival)
  | [], q0 => by simp
  | a :: input, q0 => by
    have ih := buildQueue_perm_aux input (heapPush q0 (Event.arrival a))
    show ((input.foldl (fun q a => heapPush q (Event.arrival a))
      (heapPush q0 (Event.arrival a))).toList).Perm _
    refine ih.trans ?_
    refine (List.Perm.append_right _ (heapPush_perm q0 (Event.arrival a))).trans ?_
    show ((Event.arrival a :: q0.toList) ++ input.map Event.arrival).Perm
      (q0.toList ++ Event.arrival a :: input.map Event.arrival)
    exact List.perm_middle.symm

theorem buildQueue_perm (input : List ArrivalEvent) :
    ((input.foldl (fun q a => heapPush q (Event.arrival a)) #[]).toList).Perm
      (input.map Event.arrival) := by
  have h := buildQueue_perm_aux input #[]
  simpa using h

/-- Seeding the queue preserves the heap invariant from the empty queue. -/
theorem buildQueue_heapProp (input : List ArrivalEvent) :
    HeapProp (input.foldl (fun q a => heapPush q (Event.arrival a)) #[]) := by
  have hgen : ∀ (l : List ArrivalEvent) (q0 : Array Event), HeapProp q0 →
      HeapProp (l.foldl (fun q a => heapPush q (Event.arrival a)) q0) := by
    intro l
    induction l with
    | nil => intro q0 h; exact h
    | cons a l ih =>
      intro q0 h
      exact ih _ (heapPush_heapProp q0 (Event.arrival a) h)
  refine hgen input #[] ?_
  intro i hi h0
  simp at hi
theorem filterMap_depIndex_map_arrival (input : List ArrivalEvent) :
    (input.map Event.arrival).filterMap Event.depIndex = [] := by
  induction input with
  | nil => rfl
  | cons a l ih => simpa [Event.depIndex] using ih

/-- The freshly set-up state satisfies the loop invariant. -/
theorem setup_SimInv (input : SimulationInput) (n : Nat) (hn : 1 ≤ n)
    (hnn : ∀ a ∈ input, 0 ≤ a.transactionTime) :
    SimInv { simulationInput := input
             eventQueue := input.foldl (fun q a => heapPush q (Event.arrival a)) #[]
             bankLine := []
             tellers := List.replicate n Teller.init } := by
  have hperm := buildQueue_perm input
  have hmem : ∀ x, x ∈ (input.foldl (fun q a => heapPush q (Event.arrival a)) #[]).toList →
      ∃ a ∈ input, x = Event.arrival a := by
    intro x hx
    have := hperm.mem_iff.1 hx
    rcases List.mem_map.1 this with ⟨a, ha, hax⟩
    exact ⟨a, ha, hax.symm⟩
  refine ⟨?_, ?_, ?_, ?_, ?_, ?_, ?_, ?_, ?_⟩
  · intro d hd
    rcases hmem _ hd with ⟨a, _, hax⟩
    exact Event.noConfusion hax
  · intro d hd
    rcases hmem _ hd with ⟨a, _, hax⟩
    exact Event.noConfusion hax
  · show ((input.foldl (fun q a => heapPush q (Event.arrival a)) #[]).toList.filterMap
      Event.depIndex).Nodup
    rw [(hperm.filterMap Event.depIndex).nodup_iff, filterMap_depIndex_map_arrival]
    exact List.nodup_nil
  · intro i hi hbusy
    exfalso
    rw [List.length_replicate] at hi
    rw [getElem!_replicate n Teller.init i hi] at hbusy
    simp [Teller.init] at hbusy
  · intro hne
    exact absurd rfl hne
  · show 1 ≤ (List.replicate n Teller.init).length
    rw [List.length_replicate]
    exact hn
  · intro a ha
    rcases hmem _ ha with ⟨a', ha', hax⟩
    have : a = a' := by
      injection hax
    rw [this]
    exact hnn a' ha'
  · intro c hc
    exact absurd hc (List.not_mem_nil _)
  · intro t ht
    have := List.mem_replicate.1 ht
    rw [this.2]
    exact le_refl 0

/-- The initial work ledger is the total transaction time of the trace. -/
theorem setup_workLedger (input : SimulationInput) (n : Nat) :
    workLedger { simulationInput := input
                 eventQueue := input.foldl (fun q a => heapPush q (Event.arrival a)) #[]
                 bankLine := []
                 tellers := List.replicate n Teller.init } =
      (input.map ArrivalEvent.transactionTime).sum := by
  unfold workLedger
  have hperm := buildQueue_perm input
  have h1 : ((List.replicate n Teller.init).map Teller.elapsedTimeBusy).sum = 0 := by
    induction n with
    | zero => rfl
    | succ k ih => simpa [List.replicate_succ, Teller.init, Teller.elapsedTimeBusy] using ih
  have h2 : (((input.foldl (fun q a => heapPush q (Event.arrival a)) #[]).toList).map
      (eventWork { simulationInput := input
                   eventQueue := input.foldl (fun q a => heapPush q (Event.arrival a)) #[]
                   bankLine := []
                   tellers := List.replicate n Teller.init })).sum =
      (input.map ArrivalEvent.transactionTime).sum := by
    rw [(hperm.map _).sum_eq, List.map_map]
    congr 1
  show (((List.replicate n Teller.init).map Teller.elapsedTimeBusy).sum) + _ + _ = _
  rw [h1]
  rw [show ({ simulationInput := input
              eventQueue := input.foldl (fun q a => heapPush q (Event.arrival a)) #[]
              bankLine := []
              tellers := List.replicate n Teller.init } : BankSim3000).queueEvents =
        (input.foldl (fun q a => heapPush q (Event.arrival a)) #[]).toList from rfl]
  rw [h2]
  simp

/-- The initial measure is twice the number of arrival events. -/
theorem setup_simMeasure (input : SimulationInput) (n : Nat) :
    BankSim3000.simMeasure
      { simulationInput := input
        eventQueue := input.foldl (fun q a => heapPush q (Event.arrival a)) #[]
        bankLine := []
        tellers := List.replicate n Teller.init } = 2 * input.length := by
  unfold BankSim3000.simMeasure
  have hperm := buildQueue_perm input
  have h1 : ∀ p, ((input.foldl (fun q a => heapPush q (Event.arrival a)) #[]).toList).countP p =
      (input.map Event.arrival).countP p := fun p => hperm.countP_eq p
  rw [show ({ simulationInput := input
              eventQueue := input.foldl (fun q a => heapPush q (Event.arrival a)) #[]
              bankLine := []
              tellers := List.replicate n Teller.init } : BankSim3000).eventQueue =
        input.foldl (fun q a => heapPush q (Event.arrival a)) #[] from rfl]
  rw [h1, h1]
  have h2 : (input.map Event.arrival).countP Event.isArrival = input.length := by
    induction input with
    | nil => rfl
    | cons a l ih => simpa [List.countP_cons, Event.isArrival] using ih
  have h3 : (input.map Event.arrival).countP (fun e => !e.isArrival) = 0 := by
    induction input with
    | nil => rfl
    | cons a l ih => simpa [List.countP_cons, Event.isArrival] using ih
  rw [h2, h3]
  simp

/-- One loop iteration keeps the heap invariant, and every event left (or
newly pushed) is no earlier than the event just popped. -/
theorem runStep_order (s s' : BankSim3000) (hq : s.eventQueue.size ≠ 0)
    (hInv : SimInv s) (hp : HeapProp s.eventQueue)
    (hstep : s.runStep = some s') :
    HeapProp s'.eventQueue ∧
      ∀ e ∈ s'.eventQueue.toList,
        get_event_time (s.eventQueue[0]!) ≤ get_event_time e := by
  have h0 : (0 : Nat) < s.eventQueue.size := Nat.pos_of_ne_zero hq
  have hpop := heapPop_heapProp s.eventQueue hp
  have hmin := heapProp_min_mem s.eventQueue hp
  have hpopmem : ∀ x ∈ (heapPop s.eventQueue).toList, x ∈ s.eventQueue.toList := by
    intro x hx
    exact (heapPop_perm s.eventQueue hq).mem_iff.1 (List.mem_cons_of_mem _ hx)
  have hmem_top : s.eventQueue[0]! ∈ s.eventQueue.toList := getElem!_mem_toList h0
  have hstep' : BankSim3000.processEvent { s with eventQueue := heapPop s.eventQueue }
      (get_event_time (s.eventQueue[0]!)) (s.eventQueue[0]!) = some s' := by
    rw [← hstep]
    unfold BankSim3000.runStep
    rw [getElem?_pos s.eventQueue 0 h0, ← getElem!_pos s.eventQueue 0 h0]
  cases hE : s.eventQueue[0]! with
  | arrival a =>
    rw [hE] at hstep'
    have hs' : s' = BankSim3000.processArrival
        { s with eventQueue := heapPop s.eventQueue }
        (get_event_time (Event.arrival a)) a :=
      (Option.some.inj hstep').symm
    have htxn : 0 ≤ a.transactionTime := by
      refine hInv.arrNonneg a ?_
      show Event.arrival a ∈ s.eventQueue.toList
      rw [← hE]
      exact hmem_top
    cases hsearch : BankSim3000.searchAvailableTellersAux s.tellers with
    | some i =>
      have hs2 : s' = { s with
          tellers := s.tellers.set i
            ((s.tellers[i]!).startWork (get_event_time (Event.arrival a)))
          eventQueue := heapPush (heapPop s.eventQueue)
            (Event.departure
              ⟨get_event_time (Event.arrival a) + a.transactionTime, i⟩) } := by
        rw [hs']
        unfold BankSim3000.processArrival BankSim3000.searchAvailableTellers
        rw [show ({ s with eventQueue := heapPop s.eventQueue } : BankSim3000).tellers
          = s.tellers from rfl, hsearch]
      rw [hs2]
      have hperm := heapPush_perm (heapPop s.eventQueue)
        (Event.departure ⟨get_event_time (Event.arrival a) + a.transactionTime, i⟩)
      constructor
      · show HeapProp (heapPush (heapPop s.eventQueue) _)
        exact heapPush_heapProp _ _ hpop
      · intro e he
        have he2 : e ∈ (heapPush (heapPop s.eventQueue)
            (Event.departure
              ⟨get_event_time (Event.arrival a) + a.transactionTime, i⟩)).toList := he
        rcases List.mem_cons.1 (hperm.mem_iff.1 he2) with heq | hmem
        · rw [heq]
          show a.arrivalTime ≤ a.arrivalTime + a.transactionTime
          linarith
        · have := hmin e (hpopmem e hmem)
          rw [hE] at this
          exact this
    | none =>
      have hs2 : s' = { s with
          eventQueue := heapPop s.eventQueue
          bankLine := s.bankLine ++ [Customer.mk a] } := by
        rw [hs']
        unfold BankSim3000.processArrival BankSim3000.searchAvailableTellers
        rw [show ({ s with eventQueue := heapPop s.eventQueue } : BankSim3000).tellers
          = s.tellers from rfl, hsearch]
      rw [hs2]
      refine ⟨hpop, ?_⟩
      intro e he
      have he2 : e ∈ (heapPop s.eventQueue).toList := he
      have := hmin e (hpopmem e he2)
      rw [hE] at this
      exact this
  | departure d =>
    rw [hE] at hstep'
    have hmemd : Event.departure d ∈ s.queueEvents := by
      show Event.departure d ∈ s.eventQueue.toList
      rw [← hE]
      exact hmem_top
    have hidx : d.tellerIndex < s.tellers.length := hInv.depBound d hmemd
    obtain ⟨sb, hsb, hsble⟩ := hInv.depBusy d hmemd
    have hstop : (s.tellers[d.tellerIndex]!).stopWork d.departureTime =
        some ⟨none, (s.tellers[d.tellerIndex]!).elapsedTimeBusy + (d.departureTime - sb)⟩ := by
      unfold Teller.stopWork
      rw [hsb]
      rfl
    have hstep2 : BankSim3000.processDeparture { s with eventQueue := heapPop s.eventQueue }
        (get_event_time (Event.departure d)) d = some s' := hstep'
    cases hline : s.bankLine with
    | nil =>
      have heqn : BankSim3000.processDeparture { s with eventQueue := heapPop s.eventQueue }
          (get_event_time (Event.departure d)) d = some { s with
            eventQueue := heapPop s.eventQueue
            tellers := s.tellers.set d.tellerIndex
              ⟨none, (s.tellers[d.tellerIndex]!).elapsedTimeBusy + (d.departureTime - sb)⟩ } := by
        unfold BankSim3000.processDeparture
        rw [show ({ s with eventQueue := heapPop s.eventQueue } : BankSim3000).tellers
          = s.tellers from rfl]
        rw [if_pos hidx]
        rw [show ({ s with eventQueue := heapPop s.eventQueue } : BankSim3000).bankLine
          = s.bankLine from rfl, hline]
        rw [show get_event_time (Event.departure d) = d.departureTime from rfl, hstop]
        rfl
      have hs2 : s' = { s with
          eventQueue := heapPop s.eventQueue
          tellers := s.tellers.set d.tellerIndex
            ⟨none, (s.tellers[d.tellerIndex]!).elapsedTimeBusy + (d.departureTime - sb)⟩ } := by
        rw [heqn] at hstep2
        exact (Option.some.inj hstep2).symm
      rw [hs2]
      refine ⟨hpop, ?_⟩
      intro e he
      have he2 : e ∈ (heapPop s.eventQueue).toList := he
      have := hmin e (hpopmem e he2)
      rw [hE] at this
      exact this
    | cons c rest =>
      have hctxn : 0 ≤ c.arrivalEvent.transactionTime := by
        refine hInv.lineNonneg c ?_
        rw [hline]
        exact List.mem_cons_self c rest
      have heqn : BankSim3000.processDeparture { s with eventQueue := heapPop s.eventQueue }
          (get_event_time (Event.departure d)) d = some { s with
            eventQueue := heapPush (heapPop s.eventQueue)
              (Event.departure
                ⟨d.departureTime + c.arrivalEvent.transactionTime, d.tellerIndex⟩)
            bankLine := rest
            tellers := s.tellers.set d.tellerIndex
              (Teller.startWork
                ⟨none, (s.tellers[d.tellerIndex]!).elapsedTimeBusy + (d.departureTime - sb)⟩
                d.departureTime) } := by
        unfold BankSim3000.processDeparture
        rw [show ({ s with eventQueue := heapPop s.eventQueue } : BankSim3000).tellers
          = s.tellers from rfl]
        rw [if_pos hidx]
        rw [show ({ s with eventQueue := heapPop s.eventQueue } : BankSim3000).bankLine
          = s.bankLine from rfl, hline]
        rw [show get_event_time (Event.departure d) = d.departureTime from rfl, hstop]
        rfl
      have hs2 : s' = { s with
          eventQueue := heapPush (heapPop s.eventQueue)
            (Event.departure
              ⟨d.departureTime + c.arrivalEvent.transactionTime, d.tellerIndex⟩)
          bankLine := rest
          tellers := s.tellers.set d.tellerIndex
            (Teller.startWork
              ⟨none, (s.tellers[d.tellerIndex]!).elapsedTimeBusy + (d.departureTime - sb)⟩
              d.departureTime) } := by
        rw [heqn] at hstep2
        exact (Option.some.inj hstep2).symm
      rw [hs2]
      have hperm := heapPush_perm (heapPop s.eventQueue)
        (Event.departure ⟨d.departureTime + c.arrivalEvent.transactionTime, d.tellerIndex⟩)
      constructor
      · show HeapProp (heapPush (heapPop s.eventQueue) _)
        exact heapPush_heapProp _ _ hpop
      · intro e he
        have he2 : e ∈ (heapPush (heapPop s.eventQueue)
            (Event.departure
              ⟨d.departureTime + c.arrivalEvent.transactionTime, d.tellerIndex⟩)).toList := he
        rcases List.mem_cons.1 (hperm.mem_iff.1 he2) with heq | hmem
        · rw [heq]
          show d.departureTime ≤ d.departureTime + c.arrivalEvent.transactionTime
          linarith
        · have := hmin e (hpopmem e hmem)
          rw [hE] at this
          exact this

/-- Along a well-formed run, the popped event times come out sorted and
bounded below by any lower bound on the pending events. -/
theorem runSimAux_sorted : ∀ (fuel : Nat) (s : BankSim3000) (t0 : Time)
    (s1 : BankSim3000) (n : Nat) (ts : List Time),
    SimInv s → HeapProp s.eventQueue →
    (∀ e ∈ s.eventQueue.toList, t0 ≤ get_event_time e) →
    BankSim3000.runSimAux fuel s = some (s1, n, ts) →
    ts.Pairwise (fun x y => x ≤ y) ∧ ∀ t ∈ ts, t0 ≤ t
  | 0, s, t0, s1, n, ts, hInv, hp, hb, hrun => by
    unfold BankSim3000.runSimAux at hrun
    split at hrun
    · injection hrun with h
      injection h with h1 h2
      injection h2 with h3 h4
      rw [← h4]
      exact ⟨List.Pairwise.nil, fun t ht => absurd ht (List.not_mem_nil t)⟩
    · exact Option.noConfusion hrun
  | fuel + 1, s, t0, s1, n, ts, hInv, hp, hb, hrun => by
    unfold BankSim3000.runSimAux at hrun
    by_cases hq : s.eventQueue.size = 0
    · rw [if_pos hq] at hrun
      injection hrun with h
      injection h with h1 h2
      injection h2 with h3 h4
      rw [← h4]
      exact ⟨List.Pairwise.nil, fun t ht => absurd ht (List.not_mem_nil t)⟩
    · rw [if_neg hq] at hrun
      have h0 : (0 : Nat) < s.eventQueue.size := Nat.pos_of_ne_zero hq
      rw [getElem?_pos s.eventQueue 0 h0, ← getElem!_pos s.eventQueue 0 h0] at hrun
      cases hstep : s.runStep with
      | none =>
        rw [hstep] at hrun
        exact Option.noConfusion hrun
      | some s' =>
        rw [hstep] at hrun
        have hrun2 : (BankSim3000.runSimAux fuel s').map
            (fun r => (r.1, r.2.1 + 1, get_event_time (s.eventQueue[0]!) :: r.2.2))
            = some (s1, n, ts) := hrun
        rcases Option.map_eq_some'.1 hrun2 with ⟨⟨s1', n', ts'⟩, hr, heqf⟩
        have hts : ts = get_event_time (s.eventQueue[0]!) :: ts' := by
          injection heqf with h1 h2
          injection h2 with h3 h4
          exact h4.symm
        obtain ⟨s'', hstep'', hInv'', hmeas, hled, hinput, hlen⟩ := runStep_spec s hq hInv
        have hss : s'' = s' := by
          rw [hstep''] at hstep
          exact Option.some.inj hstep
        rw [hss] at hInv''
        obtain ⟨hp', hbound⟩ := runStep_order s s' hq hInv hp hstep
        have ih := runSimAux_sorted fuel s' (get_event_time (s.eventQueue[0]!)) s1' n' ts'
          hInv'' hp' hbound hr
        have ht0 : t0 ≤ get_event_time (s.eventQueue[0]!) :=
          hb _ (getElem!_mem_toList h0)
        rw [hts]
        refine ⟨List.Pairwise.cons ih.2 ih.1, ?_⟩
        intro t ht
        rcases List.mem_cons.1 ht with heq | hmem
        · rw [heq]
          exact ht0
        · exact le_trans ht0 (ih.2 t hmem)

/-- The loop invariant holds at every state the run passes through. -/
theorem Reaches_SimInv : ∀ s s2 : BankSim3000, Reaches s s2 → SimInv s → SimInv s2 := by
  intro s s2 h
  induction h with
  | refl s =>
    intro hInv
    exact hInv
  | step s s1 s2 hq hstep hr ih =>
    intro hInv
    obtain ⟨s', hstep', hInv', hmeas, hled, hinput, hlen⟩ := runStep_spec s hq hInv
    have hss : s' = s1 := by
      rw [hstep'] at hstep
      exact Option.some.inj hstep
    rw [hss] at hInv'
    exact ih hInv'

/-- With an empty queue and an empty line the ledger is just the tellers'
accumulated busy time. -/
theorem workLedger_final (s : BankSim3000) (hq : s.eventQueue.size = 0)
    (hl : s.bankLine = []) :
    workLedger s = (s.tellers.map Teller.elapsedTimeBusy).sum := by
  unfold workLedger
  have hqe : s.queueEvents = [] := by
    show s.eventQueue.toList = []
    refine List.eq_nil_of_length_eq_zero ?_
    rw [Array.length_toList]
    exact hq
  rw [hqe, hl]
  simp

/-- Anatomy of a successful `maxTellerBusyTime` call. -/
theorem maxTellerBusyTime_ok (s : BankSim3000) (n : Nat) (v : Time) (s2 : BankSim3000)
    (h : s.maxTellerBusyTime n = Except.ok (v, s2)) :
    ∃ s0, s.setupSimulation n = Except.ok s0 ∧ ∃ s1, s0.runSimulation = some s1 ∧
      s1 = s2 ∧ (s1.gatherResults).maxTellerBusyTime = some v := by
  unfold BankSim3000.maxTellerBusyTime at h
  cases hsetup : s.setupSimulation n with
  | error e =>
    rw [hsetup] at h
    exact Except.noConfusion h
  | ok s0 =>
    rw [hsetup] at h
    refine ⟨s0, rfl, ?_⟩
    have h2 : (match s0.runSimulation with
      | none => Except.error "simulation fault"
      | some s2 =>
        match (s2.gatherResults).maxTellerBusyTime with
        | none => Except.error "max_element of empty results"
        | some m => Except.ok (m, s2)) = Except.ok (v, s2) := h
    cases hrun : s0.runSimulation with
    | none =>
      rw [hrun] at h2
      exact Except.noConfusion h2
    | some s1 =>
      rw [hrun] at h2
      refine ⟨s1, rfl, ?_⟩
      have h3 : (match (s1.gatherResults).maxTellerBusyTime with
        | none => (Except.error "max_element of empty results" : Except String (Time × BankSim3000))
        | some m => Except.ok (m, s1)) = Except.ok (v, s2) := h2
      cases hmax : (s1.gatherResults).maxTellerBusyTime with
      | none =>
        rw [hmax] at h3
        exact Except.noConfusion h3
      | some m =>
        rw [hmax] at h3
        injection h3 with h4
        injection h4 with h5 h6
        exact ⟨h6, by rw [h5]⟩

/-- `maxTellerBusyTime` depends only on the stored input trace. -/
theorem maxTellerBusyTime_congr (s s' : BankSim3000) (n : Nat)
    (h : s.simulationInput = s'.simulationInput) :
    s.maxTellerBusyTime n = s'.maxTellerBusyTime n := by
  unfold BankSim3000.maxTellerBusyTime
  rw [setupSimulation_input_congr s s' n h]

/-- A completed run: work conservation, the loop invariant, an empty queue
and line, and the configured teller count at the final state. -/
theorem run_work (s : BankSim3000) (n : Nat) (s0 s1 : BankSim3000)
    (hnn : ∀ a ∈ s.simulationInput, 0 ≤ a.transactionTime)
    (hsetup : s.setupSimulation n = Except.ok s0)
    (hrun : s0.runSimulation = some s1) :
    (s1.tellers.map Teller.elapsedTimeBusy).sum =
      (s.simulationInput.map ArrivalEvent.transactionTime).sum ∧
    SimInv s1 ∧ s1.eventQueue.size = 0 ∧ s1.bankLine = [] ∧
    s1.tellers.length = n := by
  obtain ⟨hmin, hmax, hs0⟩ := (setupSimulation_ok_iff s n s0).1 hsetup
  have hn1 : 1 ≤ n := by
    unfold MIN_TELLERS at hmin
    exact hmin
  have hInv0 : SimInv s0 := by
    rw [hs0]
    exact setup_SimInv s.simulationInput n hn1 hnn
  have hled0 : workLedger s0 = (s.simulationInput.map ArrivalEvent.transactionTime).sum := by
    rw [hs0]
    exact setup_workLedger s.simulationInput n
  obtain ⟨s1', n', ts, hrunAux, hInv1, hq1, hl1, hn', hled1, hinput1, hlen1⟩ :=
    runSimAux_spec (s0.simMeasure) s0 hInv0 (le_refl _)
  have hs1 : s1 = s1' := by
    unfold BankSim3000.runSimulation at hrun
    rw [hrunAux] at hrun
    have hrun2 : some s1' = some s1 := hrun
    exact (Option.some.inj hrun2).symm
  have hlen : s1'.tellers.length = n := by
    rw [hlen1, hs0]
    show (List.replicate n Teller.init).length = n
    rw [List.length_replicate]
  have hsum : (s1'.tellers.map Teller.elapsedTimeBusy).sum =
      (s.simulationInput.map ArrivalEvent.transactionTime).sum := by
    rw [← workLedger_final s1' hq1 hl1, hled1, hled0]
  rw [hs1]
  exact ⟨hsum, hInv1, hq1, hl1, hlen⟩

/-! ## Evaluating the reference runs -/

/-- Unrolling one iteration of the fuelled loop. -/
theorem runSimAux_cons (fuel : Nat) (s s' : BankSim3000) (e : Event)
    (hq : s.eventQueue.size ≠ 0) (he : s.eventQueue[0]! = e)
    (hstep : s.runStep = some s')
    (s1 : BankSim3000) (k : Nat) (ts : List Time)
    (h : BankSim3000.runSimAux fuel s' = some (s1, k, ts)) :
    BankSim3000.runSimAux (fuel + 1) s = some (s1, k + 1, get_event_time e :: ts) := by
  unfold BankSim3000.runSimAux
  rw [if_neg hq]
  have h0 : (0 : Nat) < s.eventQueue.size := Nat.pos_of_ne_zero hq
  rw [getElem?_pos s.eventQueue 0 h0, ← getElem!_pos s.eventQueue 0 h0, he, hstep]
  show (BankSim3000.runSimAux fuel s').map _ = _
  rw [h]
  rfl

theorem runSimAux_zero (s : BankSim3000) (hq : s.eventQueue.size = 0) :
    BankSim3000.runSimAux 0 s = some (s, 0, []) := by
  unfold BankSim3000.runSimAux
  rw [if_pos hq]

/-- The single-teller reference run, evaluated: busy times `[15]`, eight
events popped, at times `20, 22, 23, 26, 30, 30, 32, 35`. -/
theorem runEval1 : BankSim3000.runSimAux 8 (setupState 1) =
    some (finalState [15], 8, [20, 22, 23, 26, 30, 30, 32, 35]) := by decide

/-- The two-teller reference run, evaluated iteration by iteration: busy
times `[11, 4]` (teller 0 serves the arrivals at 20, 23 and 30; teller 1
serves the arrival at 22). -/
theorem runEval2 : BankSim3000.runSimAux 8 (setupState 2) =
    some (finalState [11, 4], 8, [20, 22, 23, 26, 26, 28, 30, 33]) := by
  have h8 : BankSim3000.runSimAux 0 (finalState [11, 4]) = some (finalState [11, 4], 0, []) :=
    runSimAux_zero _ (by decide)
  have h7 : BankSim3000.runSimAux 1 twoState7 = some (finalState [11, 4], 1, [33]) :=
    runSimAux_cons 0 twoState7 (finalState [11, 4]) (Event.departure ⟨33, 0⟩)
      (by decide) (by decide) (by decide) _ _ _ h8
  have h6 : BankSim3000.runSimAux 2 twoState6 = some (finalState [11, 4], 2, [30, 33]) :=
    runSimAux_cons 1 twoState6 twoState7 (Event.arrival ⟨30, 3⟩)
      (by decide) (by decide) (by decide) _ _ _ h7
  have h5 : BankSim3000.runSimAux 3 twoState5 = some (finalState [11, 4], 3, [28, 30, 33]) :=
    runSimAux_cons 2 twoState5 twoState6 (Event.departure ⟨28, 0⟩)
      (by decide) (by decide) (by decide) _ _ _ h6
  have h4 : BankSim3000.runSimAux 4 twoState4 = some (finalState [11, 4], 4, [26, 28, 30, 33]) :=
    runSimAux_cons 3 twoState4 twoState5 (Event.departure ⟨26, 1⟩)
      (by decide) (by decide) (by decide) _ _ _ h5
  have h3 : BankSim3000.runSimAux 5 twoState3 =
      some (finalState [11, 4], 5, [26, 26, 28, 30, 33]) :=
    runSimAux_cons 4 twoState3 twoState4 (Event.departure ⟨26, 0⟩)
      (by decide) (by decide) (by decide) _ _ _ h4
  have h2 : BankSim3000.runSimAux 6 twoState2 =
      some (finalState [11, 4], 6, [23, 26, 26, 28, 30, 33]) :=
    runSimAux_cons 5 twoState2 twoState3 (Event.arrival ⟨23, 2⟩)
      (by decide) (by decide) (by decide) _ _ _ h3
  have h1 : BankSim3000.runSimAux 7 twoState1 =
      some (finalState [11, 4], 7, [22, 23, 26, 26, 28, 30, 33]) :=
    runSimAux_cons 6 twoState1 twoState2 (Event.arrival ⟨22, 4⟩)
      (by decide) (by decide) (by decide) _ _ _ h2
  exact runSimAux_cons 7 (setupState 2) twoState1 (Event.arrival ⟨20, 6⟩)
    (by decide) (by decide) (by decide) _ _ _ h1

/-- `setupSimulation` on any engine holding the reference trace yields the
reference set-up state. -/
theorem setupState_eq (s : BankSim3000) (n : Nat)
    (h : s.simulationInput = SimulationInput00) (h1 : 1 ≤ n) (h5 : n ≤ 5) :
    s.setupSimulation n = Except.ok (setupState n) := by
  refine (setupSimulation_ok_iff s n (setupState n)).2 ⟨?_, ?_, ?_⟩
  · unfold MIN_TELLERS
    exact h1
  · unfold MAX_TELLERS
    exact h5
  · rw [h]
    rfl

theorem runSimulationEval1 : (setupState 1).runSimulation = some (finalState [15]) := by
  unfold BankSim3000.runSimulation
  rw [show (setupState 1).simMeasure = 8 from by decide, runEval1]
  rfl

theorem runSimulationEval2 : (setupState 2).runSimulation = some (finalState [11, 4]) := by
  unfold BankSim3000.runSimulation
  rw [show (setupState 2).simMeasure = 8 from by decide, runEval2]
  rfl

/-- Forward evaluation of `maxTellerBusyTime` from the results of its
three phases. -/
theorem maxTellerBusyTime_eval (s : BankSim3000) (n : Nat) (s0 s1 : BankSim3000) (v : Time)
    (hsetup : s.setupSimulation n = Except.ok s0)
    (hrun : s0.runSimulation = some s1)
    (hmax : (s1.gatherResults).maxTellerBusyTime = some v) :
    s.maxTellerBusyTime n = Except.ok (v, s1) := by
  unfold BankSim3000.maxTellerBusyTime
  rw [hsetup]
  show (match s0.runSimulation with
    | none => (Except.error "simulation fault" : Except String (Time × BankSim3000))
    | some s2 =>
      match (s2.gatherResults).maxTellerBusyTime with
      | none => Except.error "max_element of empty results"
      | some m => Except.ok (m, s2)) = _
  rw [hrun]
  show (match (s1.gatherResults).maxTellerBusyTime with
    | none => (Except.error "max_element of empty results" : Except String (Time × BankSim3000))
    | some m => Except.ok (m, s1)) = _
  rw [hmax]

/-- `maxTellerBusyTime(1)` on the reference trace returns 15. -/
theorem maxEval1 (s : BankSim3000) (h : s.simulationInput = SimulationInput00) :
    s.maxTellerBusyTime 1 = Except.ok (15, finalState [15]) :=
  maxTellerBusyTime_eval s 1 (setupState 1) (finalState [15]) 15
    (setupState_eq s 1 h (by decide) (by decide)) runSimulationEval1 (by decide)

/-- `maxTellerBusyTime(2)` on the reference trace returns 11. -/
theorem maxEval2 (s : BankSim3000) (h : s.simulationInput = SimulationInput00) :
    s.maxTellerBusyTime 2 = Except.ok (11, finalState [11, 4]) :=
  maxTellerBusyTime_eval s 2 (setupState 2) (finalState [11, 4]) 11
    (setupState_eq s 2 h (by decide) (by decide)) runSimulationEval2 (by decide)

/-! ## The claims -/

/-- C1: for every input trace of arrival events with non-negative arrival
and transaction times and every teller count in the valid range, once a
run completes (the event queue is drained), the sum over all tellers of
`elapsedTimeWorking()` equals the sum over all arrival events of their
`transactionTime` — no work is lost or duplicated. -/
theorem C1_work_conservation (s : BankSim3000) (n : Nat) (s0 s1 : BankSim3000)
    (hnn : ∀ a ∈ s.simulationInput, 0 ≤ a.arrivalTime ∧ 0 ≤ a.transactionTime)
    (hrange : MIN_TELLERS ≤ n ∧ n ≤ MAX_TELLERS)
    (hsetup : s.setupSimulation n = Except.ok s0)
    (hrun : s0.runSimulation = some s1) :
    ((s1.gatherResults).elapsedTimeBusy).sum =
      (s.simulationInput.map ArrivalEvent.transactionTime).sum := by
  have h := run_work s n s0 s1 (fun a ha => (hnn a ha).2) hsetup hrun
  show (s1.tellers.map Teller.elapsedTimeBusy).sum = _
  exact h.1

theorem C1_work_conservation_witness :
    ((BankSim3000.gatherResults (finalState [15])).elapsedTimeBusy).sum =
      (SimulationInput00.map ArrivalEvent.transactionTime).sum :=
  C1_work_conservation bankSim 1 (setupState 1) (finalState [15])
    (by decide) (by decide)
    (setupState_eq bankSim 1 rfl (by decide) (by decide)) runSimulationEval1

/-- C2 (corrected): on the reference trace `{(20,6), (22,4), (23,2),
(30,3)}`, running the simulation with 2 tellers yields a peak teller busy
time of 11, not 9 as the specification states.  At time 26 both pending
departures fire before the arrival at 30; teller 0 serves the queued
customer `(23,2)` and then the arrival at 30, accumulating
`6 + 2 + 3 = 11`, while teller 1 accumulates only 4. -/
theorem C2_two_tellers_peak (s : BankSim3000)
    (h : s.simulationInput = SimulationInput00) :
    ∃ s2, s.maxTellerBusyTime 2 = Except.ok (11, s2) :=
  ⟨finalState [11, 4], maxEval2 s h⟩

theorem C2_two_tellers_peak_witness :
    ∃ s2, bankSim.maxTellerBusyTime 2 = Except.ok (11, s2) :=
  C2_two_tellers_peak bankSim rfl

/-- C2 (counterexample to the specification): the peak busy time with
2 tellers on the reference trace is not 9. -/
theorem C2_spec_peak_refuted :
    ¬ ∃ s2, bankSim.maxTellerBusyTime 2 = Except.ok (9, s2) := by
  intro ⟨s2, h⟩
  rw [maxEval2 bankSim rfl] at h
  injection h with h
  injection h with h1 h2
  exact absurd h1 (by decide)

/-- C3: `setupSimulation` (reached via `maxTellerBusyTime`) fails with
`invalid_argument` for every teller count outside the closed range
`[MIN_TELLERS, MAX_TELLERS] = [1, 5]` and succeeds for every count inside
it.  The bound checks precede every mutation, so on the error path no new
engine state is produced and the caller's state is untouched (the embedded
error value carries no state). -/
theorem C3_configure_bounds (s : BankSim3000) (n : Nat) :
    (n < MIN_TELLERS ∨ n > MAX_TELLERS →
      ∃ msg, s.setupSimulation n = Except.error msg) ∧
    (MIN_TELLERS ≤ n ∧ n ≤ MAX_TELLERS →
      ∃ s0, s.setupSimulation n = Except.ok s0) := by
  refine ⟨setupSimulation_invalid s n, ?_⟩
  intro ⟨h1, h2⟩
  exact ⟨_, (setupSimulation_ok_iff s n _).2 ⟨h1, h2, rfl⟩⟩

theorem C3_configure_bounds_witness :
    (∃ msg, bankSim.setupSimulation 0 = Except.error msg) ∧
    (∃ msg, bankSim.setupSimulation 6 = Except.error msg) ∧
    (∃ s0, bankSim.setupSimulation 3 = Except.ok s0) :=
  ⟨(C3_configure_bounds bankSim 0).1 (by decide),
   (C3_configure_bounds bankSim 6).1 (by decide),
   (C3_configure_bounds bankSim 3).2 (by decide)⟩

/-- C4: on a fixed trace with non-negative times, the peak busy time
reported for any teller count never exceeds the peak reported for a single
teller: with several tellers the peak is at most the total work, and a
single teller accumulates exactly the total work. -/
theorem C4_peak_le_single (s : BankSim3000) (n : Nat)
    (hnn : ∀ a ∈ s.simulationInput, 0 ≤ a.arrivalTime ∧ 0 ≤ a.transactionTime)
    (hrange : MIN_TELLERS ≤ n ∧ n ≤ MAX_TELLERS)
    (vN v1 : Time) (sN s1 : BankSim3000)
    (hN : s.maxTellerBusyTime n = Except.ok (vN, sN))
    (h1 : s.maxTellerBusyTime 1 = Except.ok (v1, s1)) :
    vN ≤ v1 := by
  obtain ⟨s0N, hsetN, sN', hrunN, hsNeq, hmaxN⟩ := maxTellerBusyTime_ok s n vN sN hN
  obtain ⟨s01, hset1, s1', hrun1, hs1eq, hmax1⟩ := maxTellerBusyTime_ok s 1 v1 s1 h1
  obtain ⟨hsumN, hInvN, _, _, _⟩ :=
    run_work s n s0N sN' (fun a ha => (hnn a ha).2) hsetN hrunN
  obtain ⟨hsum1, hInv1, _, _, hlen1⟩ :=
    run_work s 1 s01 s1' (fun a ha => (hnn a ha).2) hset1 hrun1
  have hmaxN2 : (sN'.tellers.map Teller.elapsedTimeBusy).max? = some vN := hmaxN
  have hmemN : vN ∈ sN'.tellers.map Teller.elapsedTimeBusy :=
    List.max?_mem max_choice hmaxN2
  have hnonnegN : ∀ x ∈ sN'.tellers.map Teller.elapsedTimeBusy, 0 ≤ x := by
    intro x hx
    rcases List.mem_map.1 hx with ⟨t, ht, hxe⟩
    rw [← hxe]
    exact hInvN.elapsedNonneg t ht
  have hleN : vN ≤ (sN'.tellers.map Teller.elapsedTimeBusy).sum :=
    List.single_le_sum hnonnegN vN hmemN
  have hv1 : v1 = (s1'.tellers.map Teller.elapsedTimeBusy).sum := by
    rcases List.length_eq_one.1 hlen1 with ⟨t, ht⟩
    have hmax12 : (s1'.tellers.map Teller.elapsedTimeBusy).max? = some v1 := hmax1
    rw [ht] at hmax12 ⊢
    have hone : (([t] : List Teller).map Teller.elapsedTimeBusy).max? =
        some t.elapsedTimeBusy := rfl
    rw [hone] at hmax12
    injection hmax12 with h
    rw [← h]
    simp
  rw [hsumN] at hleN
  rw [hv1, hsum1]
  exact hleN

theorem C4_peak_le_single_witness : (11 : Time) ≤ 15 :=
  C4_peak_le_single bankSim 2 (by decide) (by decide) 11 15
    (finalState [11, 4]) (finalState [15]) (maxEval2 bankSim rfl) (maxEval1 bankSim rfl)

/-- C5: on the reference trace `{(20,6), (22,4), (23,2), (30,3)}`, running
the simulation with a single teller yields a peak teller busy time of 15,
the sum of all transaction times. -/
theorem C5_single_teller_peak (s : BankSim3000)
    (h : s.simulationInput = SimulationInput00) :
    ∃ s2, s.maxTellerBusyTime 1 = Except.ok (15, s2) :=
  ⟨finalState [15], maxEval1 s h⟩

theorem C5_single_teller_peak_witness :
    ∃ s2, bankSim.maxTellerBusyTime 1 = Except.ok (15, s2) :=
  C5_single_teller_peak bankSim rfl

/-- C6: starting from a set-up state over a trace with non-negative
arrival and transaction times, the sequence of event times popped from the
priority queue over the whole run is non-decreasing. -/
theorem C6_sorted_pops (s : BankSim3000) (n : Nat) (s0 : BankSim3000)
    (hnn : ∀ a ∈ s.simulationInput, 0 ≤ a.arrivalTime ∧ 0 ≤ a.transactionTime)
    (hsetup : s.setupSimulation n = Except.ok s0)
    (s1 : BankSim3000) (k : Nat) (ts : List Time)
    (hrun : BankSim3000.runSimAux (s0.simMeasure) s0 = some (s1, k, ts)) :
    ts.Pairwise (fun x y => x ≤ y) := by
  obtain ⟨hminb, hmaxb, hs0⟩ := (setupSimulation_ok_iff s n s0).1 hsetup
  have hn1 : 1 ≤ n := by
    unfold MIN_TELLERS at hminb
    exact hminb
  have hInv0 : SimInv s0 := by
    rw [hs0]
    exact setup_SimInv s.simulationInput n hn1 (fun a ha => (hnn a ha).2)
  have hp0 : HeapProp s0.eventQueue := by
    rw [hs0]
    exact buildQueue_heapProp s.simulationInput
  have hb : ∀ e ∈ s0.eventQueue.toList, (0 : Time) ≤ get_event_time e := by
    rw [hs0]
    intro e he
    have he2 : e ∈ (s.simulationInput.foldl
        (fun q a => heapPush q (Event.arrival a)) #[]).toList := he
    rcases List.mem_map.1 ((buildQueue_perm s.simulationInput).mem_iff.1 he2) with
      ⟨a, ha, hae⟩
    rw [← hae]
    show (0 : Time) ≤ a.arrivalTime
    exact (hnn a ha).1
  exact (runSimAux_sorted (s0.simMeasure) s0 0 s1 k ts hInv0 hp0 hb hrun).1

theorem C6_sorted_pops_witness :
    ([20, 22, 23, 26, 30, 30, 32, 35] : List Time).Pairwise (fun x y => x ≤ y) :=
  C6_sorted_pops bankSim 1 (setupState 1) (by decide)
    (setupState_eq bankSim 1 rfl (by decide) (by decide))
    (finalState [15]) 8 [20, 22, 23, 26, 30, 30, 32, 35] runEval1

/-- C7: when the event loop exits (the queue is empty), the bank line is
empty as well — every queued customer was eventually served. -/
theorem C7_line_empty_at_exit (s : BankSim3000) (n : Nat) (s0 s1 : BankSim3000)
    (hnn : ∀ a ∈ s.simulationInput, 0 ≤ a.arrivalTime ∧ 0 ≤ a.transactionTime)
    (hsetup : s.setupSimulation n = Except.ok s0)
    (hrun : s0.runSimulation = some s1) :
    s1.eventQueue.size = 0 ∧ s1.bankLine = [] := by
  have h := run_work s n s0 s1 (fun a ha => (hnn a ha).2) hsetup hrun
  exact ⟨h.2.2.1, h.2.2.2.1⟩

theorem C7_line_empty_at_exit_witness :
    (finalState [15]).eventQueue.size = 0 ∧ (finalState [15]).bankLine = [] :=
  C7_line_empty_at_exit bankSim 1 (setupState 1) (finalState [15]) (by decide)
    (setupState_eq bankSim 1 rfl (by decide) (by decide)) runSimulationEval1

/-- C8: on a trace of K arrivals with non-negative times, the event loop
terminates, and the number of events popped and processed over the whole
run is at most 2K (in fact exactly 2K: each arrival is processed once and
schedules exactly one departure). -/
theorem C8_terminates_in_2K (s : BankSim3000) (n : Nat) (s0 : BankSim3000)
    (hnn : ∀ a ∈ s.simulationInput, 0 ≤ a.arrivalTime ∧ 0 ≤ a.transactionTime)
    (hsetup : s.setupSimulation n = Except.ok s0) :
    ∃ s1 k ts, BankSim3000.runSimAux (s0.simMeasure) s0 = some (s1, k, ts) ∧
      s1.eventQueue.size = 0 ∧ k ≤ 2 * s.simulationInput.length := by
  obtain ⟨hminb, hmaxb, hs0⟩ := (setupSimulation_ok_iff s n s0).1 hsetup
  have hn1 : 1 ≤ n := by
    unfold MIN_TELLERS at hminb
    exact hminb
  have hInv0 : SimInv s0 := by
    rw [hs0]
    exact setup_SimInv s.simulationInput n hn1 (fun a ha => (hnn a ha).2)
  obtain ⟨s1, k, ts, hrun, hInv1, hq1, hl1, hk, _, _, _⟩ :=
    runSimAux_spec (s0.simMeasure) s0 hInv0 (le_refl _)
  have hmeq : s0.simMeasure = 2 * s.simulationInput.length := by
    rw [hs0]
    exact setup_simMeasure s.simulationInput n
  refine ⟨s1, k, ts, hrun, hq1, ?_⟩
  rw [hk, hmeq]

theorem C8_terminates_in_2K_witness :
    ∃ s1 k ts, BankSim3000.runSimAux ((setupState 1).simMeasure) (setupState 1) =
      some (s1, k, ts) ∧
      s1.eventQueue.size = 0 ∧ k ≤ 2 * SimulationInput00.length :=
  C8_terminates_in_2K bankSim 1 (setupState 1) (by decide)
    (setupState_eq bankSim 1 rfl (by decide) (by decide))

/-- C9: a successful `maxTellerBusyTime` call leaves the engine with the
same stored input trace, and the result of a run depends only on that
trace, so calling it again with the same teller count yields an identical
result — the reset performed by `setupSimulation` fully restores the
pre-run configuration. -/
theorem C9_rerun_identical (s : BankSim3000) (n : Nat) (v : Time) (s2 : BankSim3000)
    (h : s.maxTellerBusyTime n = Except.ok (v, s2)) :
    s2.maxTellerBusyTime n = s.maxTellerBusyTime n := by
  obtain ⟨s0, hsetup, s1, hrun, hs12, hmax⟩ := maxTellerBusyTime_ok s n v s2 h
  have hinp0 : s0.simulationInput = s.simulationInput := by
    obtain ⟨_, _, hs0⟩ := (setupSimulation_ok_iff s n s0).1 hsetup
    rw [hs0]
  have hinp : s2.simulationInput = s.simulationInput := by
    rw [← hs12, runSimulation_input s0 s1 hrun, hinp0]
  exact maxTellerBusyTime_congr s2 s n hinp

theorem C9_rerun_identical_witness :
    (finalState [15]).maxTellerBusyTime 1 = bankSim.maxTellerBusyTime 1 :=
  C9_rerun_identical bankSim 1 15 (finalState [15]) (maxEval1 bankSim rfl)

/-- C10: at any state reachable during a run from a valid set-up over a
trace with non-negative times, a departure event at the root of the queue
references a teller index strictly inside the pool, and that teller is
busy with a start time no later than the departure time — so
`tellers[tellerIndex]` is in bounds, `stopWork`'s optional access cannot
fail, and the busy-time increment `departureTime - startBusy` is
non-negative. -/
theorem C10_departure_safety (s : BankSim3000) (n : Nat) (s0 s2 : BankSim3000)
    (hnn : ∀ a ∈ s.simulationInput, 0 ≤ a.arrivalTime ∧ 0 ≤ a.transactionTime)
    (hsetup : s.setupSimulation n = Except.ok s0)
    (hreach : Reaches s0 s2)
    (d : DepartureEvent) (hq : s2.eventQueue.size ≠ 0)
    (htop : s2.eventQueue[0]! = Event.departure d) :
    d.tellerIndex < s2.tellers.length ∧
      ∃ sb, (s2.tellers[d.tellerIndex]!).startBusy = some sb ∧
        sb ≤ d.departureTime := by
  obtain ⟨hminb, hmaxb, hs0⟩ := (setupSimulation_ok_iff s n s0).1 hsetup
  have hn1 : 1 ≤ n := by
    unfold MIN_TELLERS at hminb
    exact hminb
  have hInv0 : SimInv s0 := by
    rw [hs0]
    exact setup_SimInv s.simulationInput n hn1 (fun a ha => (hnn a ha).2)
  have hInv2 := Reaches_SimInv s0 s2 hreach hInv0
  have hmem : Event.departure d ∈ s2.queueEvents := by
    show Event.departure d ∈ s2.eventQueue.toList
    rw [← htop]
    exact getElem!_mem_toList (Nat.pos_of_ne_zero hq)
  exact ⟨hInv2.depBound d hmem, hInv2.depBusy d hmem⟩

theorem C10_departure_safety_witness :
    (⟨26, 0⟩ : DepartureEvent).tellerIndex < stepState3.tellers.length ∧
      ∃ sb, (stepState3.tellers[(⟨26, 0⟩ : DepartureEvent).tellerIndex]!).startBusy =
        some sb ∧ sb ≤ (⟨26, 0⟩ : DepartureEvent).departureTime := by
  have h1 : (setupState 1).runStep = some stepState1 := by decide
  have h2 : stepState1.runStep = some stepState2 := by decide
  have h3 : stepState2.runStep = some stepState3 := by decide
  have hreach : Reaches (setupState 1) stepState3 :=
    Reaches.step _ _ _ (by decide) h1
      (Reaches.step _ _ _ (by decide) h2
        (Reaches.step _ _ _ (by decide) h3 (Reaches.refl stepState3)))
  exact C10_departure_safety bankSim 1 (setupState 1) stepState3 (by decide)
    (setupState_eq bankSim 1 rfl (by decide) (by decide)) hreach ⟨26, 0⟩
    (by decide) (by decide)
